import Mathlib

/-!
Shallow embedding of the bounded-memory streaming JSON extraction engine of
src/main_app.py: the functions extract_first_json_string_value_stream,
fetch_first_station_id, extract_first_number_stream_generic and
extract_forecast_periods_stream (with its helpers find_balanced_braces_stream,
extract_str, extract_int, extract_bool), together with proofs and refutations
of the specification claims about them.

Byte strings are modelled as lists of natural numbers (one byte per entry).
A Byte Source is modelled as the list of chunks that successive read(256)
calls return; an empty chunk denotes end of stream, matching the Python
loops' "if not chunk: break".  Loops over the stream recurse structurally on
the chunk list; the inner scanning loop of extract_forecast_periods_stream is
modelled with an explicit fuel.  Its cursor strictly increases on every
iteration and never exceeds the buffer length, so the fuel of
buffer length + 2 supplied at every call site is never exhausted and the
model agrees with the unbounded Python loop.

The MicroPython ure regexes used by the source are hard-coded patterns of the
shape  "key" \s* : \s* value  with a string / integer / decimal-number /
boolean value; they are modelled by the dedicated matchers below
(matchKeyPre, valStrPlus, valStrStar, valNum, valBool, searchField), which
implement exactly the leftmost-match backtracking-free semantics those
patterns have: a match attempt is made at each position from the left, and
the character classes involved ( \s , [^"] , [0-9] ) are mutually exclusive
with the literal that follows them, so greedy maximal munch is exact.
-/

/-- A byte string: one natural number (0..255) per byte. -/
abbrev Bytes := List Nat

/-- Bytes of an ASCII string literal (utf-8 code units for ASCII text). -/
def strBytes (s : String) : Bytes := s.toList.map (fun c => c.toNat)

/-- Python regex class \s : space, tab, newline, carriage return, form feed,
vertical tab. -/
def isWsB (b : Nat) : Bool := b == 32 || b == 9 || b == 10 || b == 13 || b == 12 || b == 11

/-- ASCII digit 0-9. -/
def isDigitB (b : Nat) : Bool := 48 ≤ b && b ≤ 57

/-- Index of the first occurrence of pat as a contiguous sub-sequence; the
model of Python bytes.find(pat) restricted to a found/not-found Option.
Like Python find, the empty pattern matches at the start. -/
def firstOcc (pat : Bytes) : Bytes → Option Nat
  | [] => if pat.isEmpty then some 0 else none
  | l@(_ :: t) => if pat.isPrefixOf l then some 0 else (firstOcc pat t).map (· + 1)

/-- Model of Python buf.find(pat, start): first occurrence at or after
start. -/
def bfind (pat : Bytes) (buf : Bytes) (start : Nat) : Option Nat :=
  (firstOcc pat (buf.drop start)).map (· + start)

/-- Index of the last occurrence of byte b in l. -/
def lastOccByte (b : Nat) : Bytes → Option Nat
  | [] => none
  | c :: t =>
    match lastOccByte b t with
    | some i => some (i + 1)
    | none => if c == b then some 0 else none

/-- Model of Python buf.rfind(byte, 0, stop): last occurrence strictly before
stop. -/
def brfind (b : Nat) (buf : Bytes) (stop : Nat) : Option Nat :=
  lastOccByte b (buf.take stop)

/-- Model of the Python bslice buf[a:b]. -/
def bslice (buf : Bytes) (a b : Nat) : Bytes := (buf.take b).drop a

/-- Whether pat occurs inside l: the model of Python's "pat in l". -/
def hasSub (pat l : Bytes) : Bool := (firstOcc pat l).isSome

/-- Strip the literal pat from the front of l, or fail. -/
def stripLit (pat l : Bytes) : Option Bytes :=
  if pat.isPrefixOf l then some (l.drop pat.length) else none

/-- Match the regex fragment  "key" \s* : \s*  at the start of l and return
the remainder after the second whitespace run.  This is the common head of
every field pattern compiled in the source. -/
def matchKeyPre (key : Bytes) (l : Bytes) : Option Bytes :=
  match stripLit (34 :: key ++ [34]) l with
  | none => none
  | some r1 =>
    match r1.dropWhile isWsB with
    | 58 :: r2 => some (r2.dropWhile isWsB)
    | _ => none

/-- Value fragment  "([^"]+)"  : a quoted, non-empty, quote-free capture
(the pattern of extract_first_json_string_value_stream). -/
def valStrPlus (r : Bytes) : Option Bytes :=
  match r with
  | 34 :: r1 =>
    let v := r1.takeWhile (fun b => b != 34)
    if v.isEmpty then none
    else
      match r1.drop v.length with
      | 34 :: _ => some v
      | _ => none
  | _ => none

/-- Value fragment  "([^"]*)"  : a quoted, possibly empty, quote-free capture
(the pattern_name / pattern_shortForecast patterns of
extract_forecast_periods_stream). -/
def valStrStar (r : Bytes) : Option Bytes :=
  match r with
  | 34 :: r1 =>
    let v := r1.takeWhile (fun b => b != 34)
    match r1.drop v.length with
    | 34 :: _ => some v
    | _ => none
  | _ => none

/-- Value fragment  ([0-9]+(\.[0-9]+)?)  when allowFrac is true, plain
(\d+)  when it is false; returns the captured numeral token.  The capture is
the maximal digit run, optionally followed by a dot and a maximal non-empty
digit run, exactly as the greedy regex matches. -/
def valNum (allowFrac : Bool) (r : Bytes) : Option Bytes :=
  let ds := r.takeWhile isDigitB
  if ds.isEmpty then none
  else
    let r1 := r.drop ds.length
    if allowFrac then
      match r1 with
      | 46 :: r2 =>
        let fs := r2.takeWhile isDigitB
        if fs.isEmpty then some ds else some (ds ++ 46 :: fs)
      | _ => some ds
    else some ds

/-- Value fragment  (true|false)  (the pattern_isDaytime pattern). -/
def valBool (r : Bytes) : Option Bool :=
  if (strBytes "true").isPrefixOf r then some true
  else if (strBytes "false").isPrefixOf r then some false
  else none

/-- One match attempt of the pattern  "key" \s* : \s* value  at the start of
l, for a given value fragment. -/
def matchFieldAt (key : Bytes) (valFn : Bytes → Option α) (l : Bytes) : Option α :=
  (matchKeyPre key l).bind valFn

/-- Leftmost-match search of a field pattern over a buffer: try a match at
every position from the left, as ure.search does. -/
def searchWith (m : Bytes → Option α) : Bytes → Option α
  | [] => none
  | l@(_ :: t) =>
    match m l with
    | some v => some v
    | none => searchWith m t

/-- Leftmost match of  "key" \s* : \s* value  in a buffer. -/
def searchField (key : Bytes) (valFn : Bytes → Option α) (buf : Bytes) : Option α :=
  searchWith (matchFieldAt key valFn) buf

/-- A utf-8 continuation byte 0x80..0xbf. -/
def isCont (b : Nat) : Bool := 128 ≤ b && b < 192

/-- Consume one utf-8 encoded code point from the front of a byte list:
some rest on success, none on an invalid lead/continuation byte. -/
def utf8Step : Bytes → Option Bytes
  | [] => none
  | b :: t =>
    if b < 128 then some t
    else if b < 192 then none
    else if b < 224 then
      match t with
      | c :: t1 => if isCont c then some t1 else none
      | [] => none
    else if b < 240 then
      match t with
      | c :: d :: t1 => if isCont c && isCont d then some t1 else none
      | _ => none
    else if b < 248 then
      match t with
      | c :: d :: e :: t1 => if isCont c && isCont d && isCont e then some t1 else none
      | _ => none
    else none

/-- Validity loop: consume code points until the list is empty; every step
removes at least one byte, so the fuel list length always suffices. -/
def utf8Go : Nat → Bytes → Bool
  | 0, l => l.isEmpty
  | fuel + 1, l =>
    if l.isEmpty then true
    else
      match utf8Step l with
      | some r => utf8Go fuel r
      | none => false

/-- A utf-8 validity check on a byte list, modelling whether Python
bytes.decode("utf-8") succeeds.  Lead/continuation structure and ranges are
checked; this model is exercised only on all-ASCII values (valid) and on
values with stray bytes 0x80..0xff (invalid), where it agrees with Python. -/
def utf8Valid (l : Bytes) : Bool := utf8Go l.length l

/-- Parse a decimal digit run as a natural number (Python int on a \d+
capture). -/
def digitsToNat (l : Bytes) : Nat := l.foldl (fun acc b => acc * 10 + (b - 48)) 0

/-- Decimal digits of a natural number, most significant first (fuel-indexed
so that the definition is structural and kernel-reducible). -/
def natDigitsGo (fuel n : Nat) : Bytes :=
  match fuel with
  | 0 => []
  | fuel + 1 => if n < 10 then [48 + n] else natDigitsGo fuel (n / 10) ++ [48 + n % 10]

/-- Decimal digits of a natural number, most significant first. -/
def natDigits (n : Nat) : Bytes := natDigitsGo (n + 1) n

/-- The numeral token captured by  ([0-9]+(\.[0-9]+)?)  read as an exact
rational, modelling Python float() on the kinds of token the regex can
capture (the concrete values in this development are small integers, on
which float is exact). -/
def tokToRat (tok : Bytes) : ℚ :=
  let intPart := tok.takeWhile isDigitB
  let rest := tok.drop intPart.length
  match rest with
  | 46 :: fracPart => (digitsToNat intPart : ℚ) + (digitsToNat fracPart : ℚ) / (10 : ℚ) ^ fracPart.length
  | _ => (digitsToNat intPart : ℚ)

/-- Split a byte list into successive chunks of k bytes (the last chunk may
be shorter): the Byte Source that delivers a document with read granularity
k.  Fuel-indexed structural recursion; the fuel l.length + 1 always
suffices because every step removes k ≥ 1 bytes. -/
def chunksOfGo (fuel k : Nat) (l : Bytes) : List Bytes :=
  match fuel with
  | 0 => []
  | fuel + 1 => if k = 0 ∨ l = [] then [] else l.take k :: chunksOfGo fuel k (l.drop k)

/-- Split a byte list into successive chunks of k bytes. -/
def chunksOf (k : Nat) (l : Bytes) : List Bytes := chunksOfGo (l.length + 1) k l

/-- The suffix of a decoded url after its last slash:
Python url.rsplit("/", 1)[-1].  Slash is ASCII-safe in utf-8, so computing
on the raw bytes agrees with computing on the decoded text. -/
def lastSeg (l : Bytes) : Bytes :=
  match lastOccByte 47 l with
  | none => l
  | some i => l.drop (i + 1)

/-- Loop body state of extract_first_json_string_value_stream:
read a chunk, append, keep the trailing 4096 bytes, search the whole buffer
for  "key"\s*:\s*"([^"]+)"  and decode the capture on a match.
A failing decode is an uncaught exception, modelled as Except.error. -/
def extractStrGo (key : Bytes) : List Bytes → Bytes → Except Unit (Option Bytes)
  | [], _ => .ok none
  | c :: rest, buf =>
    if c.isEmpty then .ok none
    else
      let buf1 := buf ++ c
      let buf2 := if buf1.length > 4096 then buf1.drop (buf1.length - 4096) else buf1
      match searchField key valStrPlus buf2 with
      | some v => if utf8Valid v then .ok (some v) else .error ()
      | none => extractStrGo key rest buf2

/-- Model of extract_first_json_string_value_stream(response_stream, key).
Returns .ok (some value-bytes) on a match whose capture decodes, .ok none
when the stream ends unmatched, and .error () when the unguarded
decode("utf-8") on line 1358 of the source raises. -/
def extractStrStream (chunks : List Bytes) (key : Bytes) : Except Unit (Option Bytes) :=
  extractStrGo key chunks []

/-- Loop body of extract_first_number_stream_generic instantiated, as in the
source's own documentation, at a pattern
"key"\s*:\s*([0-9]+(\.[0-9]+)?) ; returns the captured numeral token.
float() on such a token never raises, so the try/except of the source cannot
fire and the result is an Option. -/
def numGo (key : Bytes) : List Bytes → Bytes → Option Bytes
  | [], _ => none
  | c :: rest, buf =>
    if c.isEmpty then none
    else
      let buf1 := buf ++ c
      let buf2 := if buf1.length > 4096 then buf1.drop (buf1.length - 4096) else buf1
      match searchField key (valNum true) buf2 with
      | some tok => some tok
      | none => numGo key rest buf2

/-- Model of extract_first_number_stream_generic(stream, pattern) at the
documented pattern for the given key; yields the captured numeral token
(apply tokToRat for the float the source returns). -/
def numStream (chunks : List Bytes) (key : Bytes) : Option Bytes :=
  numGo key chunks []

/-- The literal key  "id":  searched by fetch_first_station_id. -/
def idKeyPat : Bytes := strBytes "\"id\":"

/-- The filter substring  /stations/  accepted by fetch_first_station_id. -/
def stationsPat : Bytes := strBytes "/stations/"

/-- Loop body of fetch_first_station_id: read, append, keep the trailing
4096 bytes, find the literal "id": , take the next quoted span, decode it
(uncaught exception on failure), and either return the trailing path
segment when the url contains /stations/ or drop the buffer through the
rejected match and keep reading. -/
def fetchStationGo : List Bytes → Bytes → Except Unit (Option Bytes)
  | [], _ => .ok none
  | c :: rest, buf =>
    if c.isEmpty then .ok none
    else
      let buf1 := buf ++ c
      let buf2 := if buf1.length > 4096 then buf1.drop (buf1.length - 4096) else buf1
      match bfind idKeyPat buf2 0 with
      | none => fetchStationGo rest buf2
      | some idx =>
        match bfind [34] buf2 (idx + idKeyPat.length) with
        | none => fetchStationGo rest buf2
        | some sq =>
          match bfind [34] buf2 (sq + 1) with
          | none => fetchStationGo rest buf2
          | some eq =>
            let url := bslice buf2 (sq + 1) eq
            if utf8Valid url then
              if hasSub stationsPat url then .ok (some (lastSeg url))
              else fetchStationGo rest (buf2.drop (eq + 1))
            else .error ()

/-- Model of fetch_first_station_id with the HTTP layer abstracted into the
chunk list its raw stream yields.  Returns .ok (some station-id-bytes),
.ok none when the stream ends with no accepted match, and .error () when the
unguarded decode("utf-8") on line 1391 of the source raises. -/
def fetchStationId (chunks : List Bytes) : Except Unit (Option Bytes) :=
  fetchStationGo chunks []

/-- One extracted forecast record, as assembled on lines 1668-1673 of the
source: name and shortForecast as decoded text (kept here as utf-8 bytes),
temperature as the parsed integer (none when the pattern found nothing),
and the day/night flag. -/
structure Period where
  name : Bytes
  shortForecast : Bytes
  temperature : Option Nat
  isDaytime : Bool
deriving DecidableEq, Repr

/-- The literal  "periods": [  anchor searched on line 1628 (note the single
space: the source matches exactly this spelling). -/
def patPeriods : Bytes := strBytes "\"periods\": ["

/-- The literal  "number":  anchor searched on line 1634. -/
def patNumber : Bytes := strBytes "\"number\":"

/-- Model of extract_str(pattern, text) for a string field key: empty bytes
when the pattern does not match, otherwise the decoded capture; an invalid
utf-8 capture makes the unguarded decode raise (Except.error). -/
def extractStrField (key : Bytes) (text : Bytes) : Except Unit Bytes :=
  match searchField key valStrStar text with
  | none => .ok []
  | some v => if utf8Valid v then .ok v else .error ()

/-- Model of extract_int(pattern_temperature, text): int() on a \d+ capture
never raises, so the try/except of the source cannot fire. -/
def extractIntField (text : Bytes) : Option Nat :=
  (searchField (strBytes "temperature") (valNum false) text).map digitsToNat

/-- Model of extract_bool(pattern_isDaytime, text): false when the pattern
does not match. -/
def extractBoolField (text : Bytes) : Bool :=
  (searchField (strBytes "isDaytime") valBool text).getD false

/-- Classification and collection step for one closed object (lines
1653-1673): extract the four fields, classify by the day/night flag, append
if the corresponding counter is below its cap.  Returns the new day count,
night count and output list. -/
def processPeriod (text : Bytes) (dayC nightC maxDay maxNight : Nat)
    (acc : List Period) : Except Unit (Nat × Nat × List Period) := do
  let name ← extractStrField (strBytes "name") text
  let shortForecast ← extractStrField (strBytes "shortForecast") text
  let temperature := extractIntField text
  let isDaytime := extractBoolField text
  if isDaytime ∧ dayC < maxDay then
    return (dayC + 1, nightC, acc ++ [⟨name, shortForecast, temperature, isDaytime⟩])
  else if ¬ isDaytime ∧ nightC < maxNight then
    return (dayC, nightC + 1, acc ++ [⟨name, shortForecast, temperature, isDaytime⟩])
  else
    return (dayC, nightC, acc)

/-- Model of find_balanced_braces_stream's scan: walk the bytes keeping a
(possibly negative) brace depth and a started flag; answer the index of the
close brace at which the depth first returns to zero after a brace was
seen. -/
def balGo : Bytes → Nat → Int → Bool → Option Nat
  | [], _, _, _ => none
  | c :: t, i, depth, started =>
    if c == 123 then balGo t (i + 1) (depth + 1) true
    else if c == 125 then
      if depth - 1 = 0 ∧ started then some i else balGo t (i + 1) (depth - 1) started
    else balGo t (i + 1) depth started

/-- Model of find_balanced_braces_stream(text, startIdx). -/
def findBalanced (text : Bytes) (startIdx : Nat) : Option Nat :=
  (balGo (text.drop startIdx) 0 0 false).map (· + startIdx)

/-- Exit state of the inner scanning loop of
extract_forecast_periods_stream: done means the early return on line 1676
fired (both caps met); more is a break waiting for more data, carrying the
cursor, the in_periods flag, both counters and the output list. -/
inductive InnerOut where
  | done : List Period → InnerOut
  | more : Nat → Bool → Nat → Nat → List Period → InnerOut
deriving DecidableEq


/-- The inner while-loop of extract_forecast_periods_stream (lines
1626-1678), fuel-indexed.  One fuel unit is one Python iteration.  Each
iteration either breaks (more), returns early (done), raises from an
unguarded decode (error), or recurses with the cursor advanced to one past
a closing brace; since the cursor strictly increases and stays at most the
buffer length, the fuel buffer length + 2 passed by the outer loop is never
exhausted and the fuel-out branch (which breaks like a failed find) is
unreachable there. -/
def innerLoop : Nat → Bytes → Nat → Bool → Nat → Nat → Nat → Nat → List Period →
    Except Unit InnerOut
  | 0, _, idx, inP, dayC, nightC, _, _, acc => .ok (.more idx inP dayC nightC acc)
  | fuel + 1, buf, idx, inP, dayC, nightC, maxNight, maxDay, acc =>
    let anchored : Option Nat :=
      if inP then some idx else (bfind patPeriods buf idx).map (· + patPeriods.length)
    match anchored with
    | none => .ok (.more idx false dayC nightC acc)
    | some idx1 =>
      match bfind patNumber buf idx1 with
      | none => .ok (.more idx1 true dayC nightC acc)
      | some numIdx =>
        let startObj : Option Nat :=
          match brfind 123 buf numIdx with
          | none => bfind [123] buf numIdx
          | some s => if s < idx1 then bfind [123] buf numIdx else some s
        match startObj with
        | none => .ok (.more idx1 true dayC nightC acc)
        | some so =>
          match findBalanced buf so with
          | none => .ok (.more idx1 true dayC nightC acc)
          | some eo =>
            match processPeriod (bslice buf so (eo + 1)) dayC nightC maxDay maxNight acc with
            | .error e => .error e
            | .ok (dayC1, nightC1, acc1) =>
              if dayC1 ≥ maxDay ∧ nightC1 ≥ maxNight then .ok (.done acc1)
              else innerLoop fuel buf (eo + 1) true dayC1 nightC1 maxNight maxDay acc1

/-- The outer read-append-trim loop of extract_forecast_periods_stream
(lines 1615-1684): read a chunk (stop on end of stream or an empty read),
append it, on overflow keep only the trailing maxBuf bytes of the
unprocessed part and re-base the cursor to zero, run the inner scan, and
reset the cursor to zero when it has reached the buffer end.  The maxBuf = 0
case mirrors the Python quirk that buf[-0:] is the whole buffer. -/
def outerLoop : List Bytes → Bytes → Nat → Bool → Nat → Nat → Nat → Nat → Nat →
    List Period → Except Unit (List Period)
  | [], _, _, _, _, _, _, _, _, acc => .ok acc
  | c :: rest, buf, idx, inP, dayC, nightC, maxNight, maxDay, maxBuf, acc =>
    if c.isEmpty then .ok acc
    else
      let buf1 := buf ++ c
      let st :=
        if buf1.length > maxBuf then
          let unprocessed := buf1.drop idx
          (if maxBuf = 0 then unprocessed
           else unprocessed.drop (unprocessed.length - maxBuf), 0)
        else (buf1, idx)
      match innerLoop (st.1.length + 2) st.1 st.2 inP dayC nightC maxNight maxDay acc with
      | .error e => .error e
      | .ok (.done ps) => .ok ps
      | .ok (.more idx1 inP1 dayC1 nightC1 acc1) =>
        outerLoop rest st.1 (if idx1 ≥ st.1.length then 0 else idx1) inP1
          dayC1 nightC1 maxNight maxDay maxBuf acc1

/-- Model of extract_forecast_periods_stream(response_stream,
max_night_periods, max_day_periods, max_buf); the source's defaults are
(3, 7, 4096).  Except.error models an uncaught decode exception from
extract_str. -/
def extractPeriodsStream (chunks : List Bytes) (maxNight maxDay maxBuf : Nat) :
    Except Unit (List Period) :=
  outerLoop chunks [] 0 false 0 0 maxNight maxDay maxBuf []

/-- A source-side forecast record, used to build well-formed input documents
for the universally quantified claims: its serialization (serPeriod) follows
exactly the record shape of the specification's concrete scenario. -/
structure PRec where
  num : Nat
  isDay : Bool
  name : Bytes
  temp : Nat
  shortForecast : Bytes
deriving DecidableEq, Repr

/-- Serialization of one record,
left brace "number":N,"isDaytime":B,"name":"S","temperature":T,"shortForecast":"F" right brace. -/
def serPeriod (r : PRec) : Bytes :=
  strBytes "\x7b\"number\":" ++ natDigits r.num ++
  strBytes ",\"isDaytime\":" ++ (if r.isDay then strBytes "true" else strBytes "false") ++
  strBytes ",\"name\":\"" ++ r.name ++
  strBytes "\",\"temperature\":" ++ natDigits r.temp ++
  strBytes ",\"shortForecast\":\"" ++ r.shortForecast ++
  strBytes "\"\x7d"

/-- The document head up to and including the array opener the extractor
anchors on. -/
def docPre : Bytes := strBytes "\x7b\"periods\": ["

/-- The Period record the extractor is expected to build from serPeriod r. -/
def toPeriod (r : PRec) : Period :=
  ⟨r.name, r.shortForecast, some r.temp, r.isDay⟩

/-- The expected output of the capped extraction on a record sequence:
records are taken in document order, a daytime record is kept while the day
counter is below maxDay, a nighttime one while the night counter is below
maxNight (the classification of processPeriod, folded). -/
def capFilter (maxDay maxNight dayC nightC : Nat) : List PRec → List Period
  | [] => []
  | r :: rest =>
    if r.isDay then
      if dayC < maxDay then toPeriod r :: capFilter maxDay maxNight (dayC + 1) nightC rest
      else capFilter maxDay maxNight dayC nightC rest
    else
      if nightC < maxNight then toPeriod r :: capFilter maxDay maxNight dayC (nightC + 1) rest
      else capFilter maxDay maxNight dayC nightC rest

/-- A well-formed field value: ASCII with no quote and no braces.  This is
what the extraction engine itself assumes of the scalar fields of a record
(its regexes cannot represent escaped quotes, and its brace counting ignores
string context). -/
def wfVal (l : Bytes) : Prop := ∀ b ∈ l, b < 128 ∧ b ≠ 34 ∧ b ≠ 123 ∧ b ≠ 125

instance (l : Bytes) : Decidable (wfVal l) := by unfold wfVal; infer_instance

/-- A well-formed record: both string fields are well-formed values. -/
def wfRec (r : PRec) : Prop := wfVal r.name ∧ wfVal r.shortForecast

instance (r : PRec) : Decidable (wfRec r) := by unfold wfRec; infer_instance


/-- The first record of the specification's concrete scenario. -/
def recToday : PRec := ⟨1, true, strBytes "Today", 75, strBytes "Sunny"⟩

/-- The second record of the specification's concrete scenario. -/
def recTonight : PRec := ⟨2, false, strBytes "Tonight", 55, strBytes "Clear"⟩

/-- The concrete scenario document exactly as the specification writes it
(compact: no space after "periods":). -/
def c3Doc : Bytes :=
  strBytes "\x7b\"periods\":[" ++ serPeriod recToday ++ strBytes "," ++
  serPeriod recTonight ++ strBytes "]\x7d"

/-- The concrete scenario document with the array opener spelled
"periods": [ — the only spelling the source's anchor search matches. -/
def c3DocSpaced : Bytes :=
  docPre ++ serPeriod recToday ++ strBytes "," ++ serPeriod recTonight ++ strBytes "]\x7d"


deriving instance DecidableEq for Except

set_option maxRecDepth 40000

set_option maxHeartbeats 2000000

/-- A record whose serialization is longer than the small buffer cap used to
exhibit the eviction defect. -/
def recA : PRec := ⟨1, false, strBytes "A", 5, strBytes "B"⟩

/-- A closed object with no isDaytime field at all. -/
def t9 : Bytes := strBytes "\x7b\"number\":1,\"name\":\"X\"\x7d"

/-- The document of the numeric chunking scenario. -/
def tempDoc : Bytes := strBytes "\x7b\"temperature\": 125\x7d"

/-- Comma-joined serialization of a list of records, each followed by the
separating comma (a prefix of the periods array's contents). -/
def serComma (rs : List PRec) : Bytes := (rs.map (fun r => serPeriod r ++ [44])).flatten

/-- A document whose periods array holds the records of done fully closed
and then one record truncated immediately before its closing brace. -/
def truncDoc (done : List PRec) (last : PRec) : Bytes :=
  docPre ++ serComma done ++ (serPeriod last).dropLast

/-- The serialized record without its enclosing braces: serPeriod r is the
open brace, then serMid r, then the close brace.  Spelled out in the
right-nested form the scanning lemmas walk over. -/
def serMid (r : PRec) : Bytes :=
  34 :: (strBytes "number" ++ (34 :: 58 :: (natDigits r.num ++ (44 :: 34 :: (strBytes "isDaytime" ++ (34 :: 58 :: ((if r.isDay then strBytes "true" else strBytes "false") ++ (44 :: 34 :: (strBytes "name" ++ (34 :: 58 :: 34 :: (r.name ++ (34 :: 44 :: 34 :: (strBytes "temperature" ++ (34 :: 58 :: (natDigits r.temp ++ (44 :: 34 :: (strBytes "shortForecast" ++ (34 :: 58 :: 34 :: (r.shortForecast ++ [34])))))))))))))))))))

/-- C1: the cap invariant fails on the code.  The document stream holds
exactly one daytime record (and its closing bracket arrives in a second
chunk); with caps day = 2, night = 0 the function returns that record twice,
so the output has 2 daytime records although min(K_a, a) = min(1, 2) = 1:
when a chunk ends exactly at a record's closing brace the cursor equals the
buffer length and is reset to zero (line 1682), and the object is re-matched
and re-counted after the next read. -/
theorem claim1_cap_exceeded_by_duplicate :
    extractPeriodsStream [docPre ++ serPeriod recToday, strBytes "]\x7d"] 0 2 4096 =
      .ok [toPeriod recToday, toPeriod recToday] ∧
    (toPeriod recToday).isDaytime = true ∧
    extractPeriodsStream [docPre ++ serPeriod recToday, strBytes "]\x7d"] 0 2 4096 ≠
      .ok [toPeriod recToday] := by
  refine ⟨by decide, by decide, by decide⟩

/-- C2: the extraction result depends on the Byte Source's chunking
granularity.  On the same 20-byte document the number extractor returns the
numeral 1 when the stream is split into 17-byte chunks (the greedy number
pattern matches the truncated digit run at the buffer boundary) but 125 when
the document arrives whole, and the floats produced from the two tokens
differ. -/
theorem claim2_result_depends_on_chunk_size :
    numStream (chunksOf 17 tempDoc) (strBytes "temperature") = some (strBytes "1") ∧
    numStream (chunksOf 20 tempDoc) (strBytes "temperature") = some (strBytes "125") ∧
    tokToRat (strBytes "1") ≠ tokToRat (strBytes "125") := by
  refine ⟨by decide, by decide, by decide⟩

/-- C3 counterexample: on the specification's concrete document, spelled
compactly as "periods":[ , delivered in 7-byte chunks with caps
day = 1 and night = 1, the function returns no records at all — the anchor
search on line 1628 only matches the spelling "periods": [ with a space —
so the claimed output of two records is wrong. -/
theorem claim3_counterexample :
    extractPeriodsStream (chunksOf 7 c3Doc) 1 1 4096 = .ok [] ∧
    extractPeriodsStream (chunksOf 7 c3Doc) 1 1 4096 ≠
      .ok [toPeriod recToday, toPeriod recTonight] := by
  refine ⟨by decide, by decide⟩

/-- C3 amended: the same scenario with the array opener spelled
"periods": [ (the one spelling the source matches) does return exactly the
two expected records in document order. -/
theorem claim3_amended :
    extractPeriodsStream (chunksOf 7 c3DocSpaced) 1 1 4096 =
      .ok [toPeriod recToday, toPeriod recTonight] := by
  decide

/-- C4: the buffer trim does discard bytes beyond the Cursor.  The two runs
below differ only in max_buf: with max_buf = 20 the second append makes the
unprocessed tail (which starts at the opening brace of the still-open
object, cursor 13) longer than max_buf, the trim keeps only its trailing 20
bytes — discarding the opening brace the parse still needs — and the record
is lost; with max_buf = 4096 the identical stream yields the record. -/
theorem claim4_trim_discards_beyond_cursor :
    extractPeriodsStream
      [docPre ++ (serPeriod recA).take 5, (serPeriod recA).drop 5 ++ strBytes "]\x7d"]
      3 7 20 = .ok [] ∧
    extractPeriodsStream
      [docPre ++ (serPeriod recA).take 5, (serPeriod recA).drop 5 ++ strBytes "]\x7d"]
      3 7 4096 = .ok [toPeriod recA] := by
  refine ⟨by decide, by decide⟩

/-- C5: the Cursor is not non-decreasing and consumed objects are
re-matched.  When the first chunk ends exactly at the first record's closing
brace, the cursor (one past that brace) equals the buffer length and line
1682 resets it to zero without any trim; after the next chunk the first
record is matched again and appended a second time, so the output is
[Today, Today, Tonight] instead of [Today, Tonight]. -/
theorem claim5_cursor_reset_causes_rematch :
    extractPeriodsStream
      [docPre ++ serPeriod recToday, strBytes "," ++ serPeriod recTonight ++ strBytes "]\x7d"]
      3 7 4096 = .ok [toPeriod recToday, toPeriod recToday, toPeriod recTonight] := by
  decide

/-- C6 counterexample: a stream whose single chunk holds a first id value
that fails the /stations/ filter and a second that passes it.  The loop body
runs one find per read; after rejecting the first match it trims the buffer
and immediately hits end-of-stream, returning None although the passing
value was already buffered — the claim says the later passing value is
returned on every such stream. -/
theorem claim6_counterexample :
    fetchStationId [strBytes "\x7b\"id\":\"x\",\"id\":\"https://a/stations/ABC\"\x7d"] =
      .ok none ∧
    fetchStationId [strBytes "\x7b\"id\":\"x\",\"id\":\"https://a/stations/ABC\"\x7d"] ≠
      .ok (some (strBytes "ABC")) := by
  refine ⟨by decide, by decide⟩

/-- C8 counterexample: a stream truncated immediately before the second
record's closing brace, but chunked so that the first chunk ends exactly at
the first record's closing brace.  The cursor-reset defect (line 1682)
re-matches the first record after the second read, so the function returns
the prior record twice — not "all previously fully-closed records". -/
theorem claim8_counterexample :
    extractPeriodsStream
      [docPre ++ serPeriod recToday, strBytes "," ++ (serPeriod recTonight).dropLast]
      3 7 4096 = .ok [toPeriod recToday, toPeriod recToday] ∧
    extractPeriodsStream
      [docPre ++ serPeriod recToday, strBytes "," ++ (serPeriod recTonight).dropLast]
      3 7 4096 ≠ .ok [toPeriod recToday] := by
  refine ⟨by decide, by decide⟩

/-- C7 counterexample: a stream whose matched value is the single byte 0xff,
which is not decodable utf-8.  The decode on line 1358 is not wrapped in any
try/except, so the exception propagates to the caller (modelled as
Except.error) instead of yielding the NotFound result None. -/
theorem claim7_counterexample :
    extractStrStream [strBytes "\x7b\"k\":\"" ++ [255] ++ strBytes "\"\x7d"] (strBytes "k") =
      .error () ∧
    extractStrStream [strBytes "\x7b\"k\":\"" ++ [255] ++ strBytes "\"\x7d"] (strBytes "k") ≠
      .ok none := by
  refine ⟨by decide, by decide⟩

/-- C10 counterexample: a document in which the occurrence of the key with
the empty value is the second one and a non-empty value occurs earlier.
There is no later occurrence with a non-empty value, so the claim says the
result is None, but the function returns the earlier value A. -/
theorem claim10_counterexample :
    extractStrStream [strBytes "\x7b\"k\":\"A\",\"k\":\"\"\x7d"] (strBytes "k") =
      .ok (some (strBytes "A")) ∧
    extractStrStream [strBytes "\x7b\"k\":\"A\",\"k\":\"\"\x7d"] (strBytes "k") ≠
      .ok none := by
  refine ⟨by decide, by decide⟩
/-! ### Shared utility lemmas about the byte-level primitives -/

theorem nat_beq_false {a b : Nat} (h : a ≠ b) : (a == b) = false := by
  simp [h]

theorem firstOcc_append_notin (pat : Bytes) (a : Nat) (hpat : pat.head? = some a) :
    ∀ (blk l : Bytes), (∀ b ∈ blk, b ≠ a) →
      firstOcc pat (blk ++ l) = (firstOcc pat l).map (· + blk.length) := by
  intro blk
  induction blk with
  | nil =>
    intro l _
    simp only [List.nil_append, List.length_nil]
    cases h : firstOcc pat l <;> simp
  | cons c blk ih =>
    intro l hb
    have hca : c ≠ a := hb c (by simp)
    have hpre : pat.isPrefixOf (c :: (blk ++ l)) = false := by
      cases pat with
      | nil => simp at hpat
      | cons p pt =>
        have hpa : p = a := by simpa using hpat
        subst hpa
        simp [List.isPrefixOf, nat_beq_false (fun h => hca h.symm)]
    rw [List.cons_append]
    rw [show firstOcc pat (c :: (blk ++ l)) =
          (firstOcc pat (blk ++ l)).map (· + 1) by
        simp [firstOcc, hpre]]
    rw [ih l (fun b hbm => hb b (by simp [hbm]))]
    rcases h : firstOcc pat l with _ | v
    · simp
    · simp only [h, Option.map_some', List.length_cons]
      exact congrArg some (by omega)

theorem lastOccByte_concat (b : Nat) (l : Bytes) :
    lastOccByte b (l ++ [b]) = some l.length := by
  induction l with
  | nil => simp [lastOccByte]
  | cons c t ih => simp [lastOccByte, ih]

theorem isPrefixOf_append_same : ∀ (k a b : Bytes),
    (k ++ a).isPrefixOf (k ++ b) = a.isPrefixOf b := by
  intro k
  induction k with
  | nil => intro a b; rfl
  | cons c t ih =>
    intro a b
    rw [List.cons_append, List.cons_append]
    show ((c == c) && List.isPrefixOf (t ++ a) (t ++ b)) = _
    rw [ih]
    simp

theorem balGo_skip (m : Bytes) :
    ∀ (l : Bytes) (i : Nat) (d : Int) (s : Bool), (∀ x ∈ l, x ≠ 123 ∧ x ≠ 125) →
      balGo (l ++ m) i d s = balGo m (i + l.length) d s := by
  intro l
  induction l with
  | nil => intro i d s _; simp
  | cons c t ih =>
    intro i d s h
    have hc := h c (by simp)
    rw [List.cons_append]
    rw [show balGo (c :: (t ++ m)) i d s = balGo (t ++ m) (i + 1) d s by
      simp [balGo, hc.1, hc.2]]
    rw [ih (i + 1) d s (fun x hx => h x (by simp [hx]))]
    congr 1
    simp
    omega

theorem balGo_none (l : Bytes) (i : Nat) (d : Int) (s : Bool)
    (h : ∀ x ∈ l, x ≠ 123 ∧ x ≠ 125) : balGo l i d s = none := by
  have := balGo_skip [] l i d s h
  simpa [balGo] using this

theorem takeWhile_append_all (p : Nat → Bool) (c : Nat) (r : Bytes)
    (hc : p c = false) :
    ∀ v : Bytes, (∀ b ∈ v, p b = true) → (v ++ c :: r).takeWhile p = v := by
  intro v
  induction v with
  | nil => intro _; simp [List.takeWhile, hc]
  | cons x t ih =>
    intro hv
    have hx : p x = true := hv x (by simp)
    simp [List.takeWhile, hx, ih (fun b hb => hv b (by simp [hb]))]

theorem ascii_utf8Go : ∀ (fuel : Nat) (l : Bytes), (∀ b ∈ l, b < 128) →
    l.length ≤ fuel → utf8Go fuel l = true := by
  intro fuel
  induction fuel with
  | zero =>
    intro l _ hl
    have : l = [] := List.eq_nil_of_length_eq_zero (by omega)
    subst this
    rfl
  | succ f ih =>
    intro l h hl
    cases l with
    | nil => rfl
    | cons b t =>
      have hb : b < 128 := h b (by simp)
      have hstep : utf8Step (b :: t) = some t := by
        simp [utf8Step, hb]
      simp only [utf8Go, List.isEmpty_cons, hstep]
      exact ih t (fun x hx => h x (by simp [hx])) (by simp at hl; omega)

theorem ascii_utf8Valid (l : Bytes) (h : ∀ b ∈ l, b < 128) : utf8Valid l = true :=
  ascii_utf8Go l.length l h (le_refl _)

/-! ### Lemmas about the field matchers -/

theorem matchKeyPre_cons_ne34 (key : Bytes) (c : Nat) (l : Bytes) (hc : c ≠ 34) :
    matchKeyPre key (c :: l) = none := by
  have : ((34 : Nat) == c) = false := nat_beq_false (fun h => hc h.symm)
  simp [matchKeyPre, stripLit, List.isPrefixOf, this]

theorem searchField_cons_skip {α} (key : Bytes) (valFn : Bytes → Option α)
    (c : Nat) (l : Bytes) (hc : c ≠ 34) :
    searchField key valFn (c :: l) = searchField key valFn l := by
  simp [searchField, searchWith, matchFieldAt, matchKeyPre_cons_ne34 key c l hc]

theorem searchField_block_skip {α} (key : Bytes) (valFn : Bytes → Option α) :
    ∀ (blk l : Bytes), (∀ b ∈ blk, b ≠ 34) →
      searchField key valFn (blk ++ l) = searchField key valFn l := by
  intro blk
  induction blk with
  | nil => intro l _; rfl
  | cons c t ih =>
    intro l h
    rw [List.cons_append, searchField_cons_skip key valFn c _ (h c (by simp)),
      ih l (fun b hb => h b (by simp [hb]))]

theorem searchField_cons34_skip {α} (key : Bytes) (valFn : Bytes → Option α)
    (l : Bytes) (hm : matchFieldAt key valFn (34 :: l) = none) :
    searchField key valFn (34 :: l) = searchField key valFn l := by
  simp [searchField, searchWith, hm]

theorem isPrefixOf_cons_eq (a b : Nat) (l1 l2 : Bytes) :
    (a :: l1).isPrefixOf (b :: l2) = (a == b && l1.isPrefixOf l2) := rfl

theorem isPrefixOf_nil_left (r : Bytes) : [].isPrefixOf r = true := by
  cases r <;> rfl

theorem isPrefixOf_self_append : ∀ l r : Bytes, l.isPrefixOf (l ++ r) = true := by
  intro l
  induction l with
  | nil => intro r; exact isPrefixOf_nil_left r
  | cons c t ih =>
    intro r
    rw [List.cons_append, isPrefixOf_cons_eq, ih]
    simp

theorem matchKeyPre_exact (key rest : Bytes) :
    matchKeyPre key (34 :: (key ++ (34 :: 58 :: rest))) = some (rest.dropWhile isWsB) := by
  have hsplit : 34 :: (key ++ (34 :: 58 :: rest)) = (34 :: key ++ [34]) ++ (58 :: rest) := by
    simp
  have hpre : (34 :: key ++ [34]).isPrefixOf (34 :: (key ++ (34 :: 58 :: rest))) = true := by
    rw [hsplit]
    exact isPrefixOf_self_append _ _
  have hdrop : (34 :: (key ++ (34 :: 58 :: rest))).drop (34 :: key ++ [34]).length
      = 58 :: rest := by
    rw [hsplit]
    exact List.drop_left _ _
  simp only [matchKeyPre, stripLit, hpre, if_true, hdrop]
  have h58 : isWsB 58 = false := by decide
  simp [List.dropWhile, h58]

theorem searchField_here {α} (key : Bytes) (valFn : Bytes → Option α) (rest : Bytes)
    (v : α) (hv : valFn (rest.dropWhile isWsB) = some v) :
    searchField key valFn (34 :: (key ++ (34 :: 58 :: rest))) = some v := by
  simp [searchField, searchWith, matchFieldAt, matchKeyPre_exact, hv]

theorem valStrStar_exact (v r : Bytes) (hv : ∀ b ∈ v, b ≠ 34) :
    valStrStar (34 :: (v ++ 34 :: r)) = some v := by
  have htw : (v ++ 34 :: r).takeWhile (fun b => b != 34) = v :=
    takeWhile_append_all _ 34 r (by simp) v (fun b hb => by simp [hv b hb])
  simp only [valStrStar, htw, List.drop_left]

theorem valStrPlus_exact (v r : Bytes) (hv : ∀ b ∈ v, b ≠ 34) (hne : v ≠ []) :
    valStrPlus (34 :: (v ++ 34 :: r)) = some v := by
  have htw : (v ++ 34 :: r).takeWhile (fun b => b != 34) = v :=
    takeWhile_append_all _ 34 r (by simp) v (fun b hb => by simp [hv b hb])
  simp only [valStrPlus, htw, List.drop_left]
  simp [List.isEmpty_iff, hne]

theorem valNum_false_exact (ds : Bytes) (c : Nat) (r : Bytes)
    (hds : ∀ b ∈ ds, isDigitB b = true) (hne : ds ≠ []) (hc : isDigitB c = false) :
    valNum false (ds ++ c :: r) = some ds := by
  have htw : (ds ++ c :: r).takeWhile isDigitB = ds :=
    takeWhile_append_all _ c r hc ds hds
  simp only [valNum, htw]
  simp [List.isEmpty_iff, hne]

theorem valBool_true_exact (r : Bytes) : valBool (strBytes "true" ++ r) = some true := by
  simp only [valBool, isPrefixOf_self_append, if_true]

theorem valBool_false_exact (r : Bytes) : valBool (strBytes "false" ++ r) = some false := by
  have h1 : (strBytes "true").isPrefixOf (strBytes "false" ++ r) = false := by
    show (strBytes "true").isPrefixOf (102 :: (strBytes "alse" ++ r)) = false
    rw [show strBytes "true" = 116 :: strBytes "rue" from rfl, isPrefixOf_cons_eq]
    simp
  simp only [valBool, h1, isPrefixOf_self_append]
  simp

theorem digitsToNat_append_digit (l : Bytes) (d : Nat) :
    digitsToNat (l ++ [d]) = 10 * digitsToNat l + (d - 48) := by
  simp [digitsToNat, List.foldl_append]
  omega

theorem natDigitsGo_spec : ∀ (fuel n : Nat), n < fuel →
    digitsToNat (natDigitsGo fuel n) = n ∧
    (∀ b ∈ natDigitsGo fuel n, 48 ≤ b ∧ b ≤ 57) ∧ natDigitsGo fuel n ≠ [] := by
  intro fuel
  induction fuel with
  | zero => intro n h; omega
  | succ f ih =>
    intro n _
    by_cases h10 : n < 10
    · refine ⟨?_, ?_, ?_⟩ <;> (simp [natDigitsGo, h10, digitsToNat]; try omega)
    · have hdiv : n / 10 < f := by omega
      obtain ⟨ih1, ih2, ih3⟩ := ih (n / 10) hdiv
      have heq : natDigitsGo (f + 1) n = natDigitsGo f (n / 10) ++ [48 + n % 10] := by
        simp [natDigitsGo, h10]
      refine ⟨?_, ?_, ?_⟩
      · rw [heq, digitsToNat_append_digit, ih1]
        omega
      · intro b hb
        rw [heq] at hb
        rcases List.mem_append.mp hb with h | h
        · exact ih2 b h
        · simp at h
          omega
      · rw [heq]
        simp

theorem natDigits_spec (n : Nat) :
    digitsToNat (natDigits n) = n ∧
    (∀ b ∈ natDigits n, 48 ≤ b ∧ b ≤ 57) ∧ natDigits n ≠ [] :=
  natDigitsGo_spec (n + 1) n (by omega)

theorem natDigits_no34 (n : Nat) : ∀ b ∈ natDigits n, b ≠ 34 := by
  intro b hb
  have := (natDigits_spec n).2.1 b hb
  omega

theorem digit_not_ws {b : Nat} (h1 : 48 ≤ b) (h2 : b ≤ 57) : isWsB b = false := by
  simp [isWsB]
  omega

theorem capFilter_saturated : ∀ (l : List PRec) (maxD maxN d n : Nat),
    maxD ≤ d → maxN ≤ n → capFilter maxD maxN d n l = [] := by
  intro l
  induction l with
  | nil => intro maxD maxN d n _ _; rfl
  | cons r rest ih =>
    intro maxD maxN d n hd hn
    by_cases hr : r.isDay <;>
      simp [capFilter, hr, Nat.not_lt.mpr hd, Nat.not_lt.mpr hn, ih _ _ _ _ hd hn]

theorem isPrefixOf_keyq_vq_false :
    ∀ (key v z : Bytes), key ≠ v → (∀ b ∈ key, b ≠ 34) → (∀ b ∈ v, b ≠ 34) →
      (key ++ [34]).isPrefixOf (v ++ 34 :: 44 :: z) = false := by
  intro key
  induction key with
  | nil =>
    intro v z hne _ hv
    cases v with
    | nil => exact absurd rfl hne
    | cons c v1 =>
      rw [List.nil_append, List.cons_append, isPrefixOf_cons_eq]
      simp [nat_beq_false (fun h => hv c (by simp) h.symm)]
  | cons k key1 ih =>
    intro v z hne hkey hv
    cases v with
    | nil =>
      rw [List.nil_append, List.cons_append, isPrefixOf_cons_eq]
      simp [nat_beq_false (hkey k (by simp))]
    | cons c v1 =>
      rw [List.cons_append, List.cons_append, isPrefixOf_cons_eq]
      by_cases hkc : k = c
      · subst hkc
        have : key1 ≠ v1 := fun h => hne (by rw [h])
        rw [ih v1 z this (fun b hb => hkey b (by simp [hb])) (fun b hb => hv b (by simp [hb]))]
        simp
      · simp [nat_beq_false hkc]

theorem matchKeyPre_quoted_val_none (key v rest : Bytes)
    (hkey : ∀ b ∈ key, b ≠ 34) (hv : ∀ b ∈ v, b ≠ 34) :
    matchKeyPre key (34 :: (v ++ (34 :: 44 :: rest))) = none := by
  by_cases hkv : key = v
  · subst hkv
    have hsplit : 34 :: (key ++ (34 :: 44 :: rest)) = (34 :: key ++ [34]) ++ (44 :: rest) := by
      simp
    have hpre : (34 :: key ++ [34]).isPrefixOf (34 :: (key ++ (34 :: 44 :: rest))) = true := by
      rw [hsplit]; exact isPrefixOf_self_append _ _
    have hdrop : (34 :: (key ++ (34 :: 44 :: rest))).drop (34 :: key ++ [34]).length
        = 44 :: rest := by
      rw [hsplit]; exact List.drop_left _ _
    simp only [matchKeyPre, stripLit, hpre, if_true, hdrop]
    have h44 : isWsB 44 = false := by decide
    simp [List.dropWhile, h44]
  · have hpre : (34 :: key ++ [34]).isPrefixOf (34 :: (v ++ (34 :: 44 :: rest))) = false := by
      rw [List.cons_append, isPrefixOf_cons_eq,
        isPrefixOf_keyq_vq_false key v rest hkv hkey hv]
      simp
    simp only [matchKeyPre, stripLit, hpre, Bool.false_eq_true, if_false]

/-! ### The serialized record in walk-normal form, and its field lookups -/

theorem serPeriod_canon (r : PRec) : serPeriod r =
    123 :: 34 :: (strBytes "number" ++ (34 :: 58 :: (natDigits r.num ++ (44 :: 34 :: (strBytes "isDaytime" ++ (34 :: 58 :: ((if r.isDay then strBytes "true" else strBytes "false") ++ (44 :: 34 :: (strBytes "name" ++ (34 :: 58 :: 34 :: (r.name ++ (34 :: 44 :: 34 :: (strBytes "temperature" ++ (34 :: 58 :: (natDigits r.temp ++ (44 :: 34 :: (strBytes "shortForecast" ++ (34 :: 58 :: 34 :: (r.shortForecast ++ [34, 125]))))))))))))))))))) := by
  rw [serPeriod]
  rw [show strBytes "\x7b\"number\":" = 123 :: 34 :: (strBytes "number" ++ [34, 58]) from by decide]
  rw [show strBytes ",\"isDaytime\":" = 44 :: 34 :: (strBytes "isDaytime" ++ [34, 58]) from by decide]
  rw [show strBytes ",\"name\":\"" = 44 :: 34 :: (strBytes "name" ++ [34, 58, 34]) from by decide]
  rw [show strBytes "\",\"temperature\":" = 34 :: 44 :: 34 :: (strBytes "temperature" ++ [34, 58]) from by decide]
  rw [show strBytes ",\"shortForecast\":\"" = 44 :: 34 :: (strBytes "shortForecast" ++ [34, 58, 34]) from by decide]
  rw [show strBytes "\"\x7d" = [34, 125] from by decide]
  simp [List.append_assoc, List.cons_append]

theorem sb_number : strBytes "number" = [110, 117, 109, 98, 101, 114] := by decide

theorem sb_isDaytime : strBytes "isDaytime" = [105, 115, 68, 97, 121, 116, 105, 109, 101] := by decide

theorem sb_name : strBytes "name" = [110, 97, 109, 101] := by decide

theorem sb_temperature : strBytes "temperature" =
    [116, 101, 109, 112, 101, 114, 97, 116, 117, 114, 101] := by decide

theorem sb_shortForecast : strBytes "shortForecast" =
    [115, 104, 111, 114, 116, 70, 111, 114, 101, 99, 97, 115, 116] := by decide

theorem sb_true : strBytes "true" = [116, 114, 117, 101] := by decide

theorem sb_false : strBytes "false" = [102, 97, 108, 115, 101] := by decide

theorem searchField_step {α} (key : Bytes) (valFn : Bytes → Option α) (c : Nat) (l : Bytes)
    (h : matchFieldAt key valFn (c :: l) = none) :
    searchField key valFn (c :: l) = searchField key valFn l := by
  simp [searchField, searchWith, h]

theorem dropWhile_not_ws_head (c : Nat) (l : Bytes) (hc : isWsB c = false) :
    List.dropWhile isWsB (c :: l) = c :: l := by
  simp [List.dropWhile, hc]

theorem valBool_true_cons (r : Bytes) :
    valBool (116 :: 114 :: 117 :: 101 :: r) = some true := by
  rw [show (116 : Nat) :: 114 :: 117 :: 101 :: r = strBytes "true" ++ r from by
    rw [sb_true]; simp]
  exact valBool_true_exact r

theorem valBool_false_cons (r : Bytes) :
    valBool (102 :: 97 :: 108 :: 115 :: 101 :: r) = some false := by
  rw [show (102 : Nat) :: 97 :: 108 :: 115 :: 101 :: r = strBytes "false" ++ r from by
    rw [sb_false]; simp]
  exact valBool_false_exact r

theorem search_isDay (r : PRec) :
    searchField (strBytes "isDaytime") valBool (serPeriod r) = some r.isDay := by
  rw [serPeriod_canon]
  rw [searchField_step _ _ _ _ (by
    simp [matchFieldAt, matchKeyPre, stripLit, isPrefixOf_cons_eq, List.cons_append,
      sb_isDaytime, sb_number])]
  rw [searchField_step _ _ _ _ (by
    simp [matchFieldAt, matchKeyPre, stripLit, isPrefixOf_cons_eq, List.cons_append,
      sb_isDaytime, sb_number])]
  rw [searchField_block_skip _ _ (strBytes "number") _ (by rw [sb_number]; decide)]
  rw [searchField_step _ _ _ _ (by
    simp [matchFieldAt, matchKeyPre, stripLit, isPrefixOf_cons_eq, List.cons_append,
      sb_isDaytime])]
  rw [searchField_step _ _ _ _ (by
    simp [matchFieldAt, matchKeyPre, stripLit, isPrefixOf_cons_eq, List.cons_append,
      sb_isDaytime])]
  rw [searchField_block_skip _ _ (natDigits r.num) _ (natDigits_no34 r.num)]
  rw [searchField_step _ _ _ _ (by
    simp [matchFieldAt, matchKeyPre, stripLit, isPrefixOf_cons_eq, List.cons_append,
      sb_isDaytime])]
  rw [searchField_here _ _ _ r.isDay ?hv]
  case hv =>
    cases hr : r.isDay
    · rw [if_neg (by simp [hr]), sb_false]
      simp only [List.cons_append, List.nil_append]
      rw [dropWhile_not_ws_head _ _ (by decide)]
      exact valBool_false_cons _
    · rw [if_pos (by simp [hr]), sb_true]
      simp only [List.cons_append, List.nil_append]
      rw [dropWhile_not_ws_head _ _ (by decide)]
      exact valBool_true_cons _

theorem dropWhile_ws_digits (ds X : Bytes) (h : ∀ b ∈ ds, 48 ≤ b ∧ b ≤ 57)
    (hne : ds ≠ []) : List.dropWhile isWsB (ds ++ X) = ds ++ X := by
  cases ds with
  | nil => exact absurd rfl hne
  | cons d t =>
    rw [List.cons_append]
    exact dropWhile_not_ws_head _ _ (digit_not_ws (h d (by simp)).1 (h d (by simp)).2)

theorem boolLit_no34 (b : Bool) :
    ∀ x ∈ (if b then strBytes "true" else strBytes "false"), x ≠ 34 := by
  cases b
  · rw [if_neg (by simp), sb_false]; decide
  · rw [if_pos rfl, sb_true]; decide

theorem search_name (r : PRec) (hname : ∀ b ∈ r.name, b ≠ 34) :
    searchField (strBytes "name") valStrStar (serPeriod r) = some r.name := by
  rw [serPeriod_canon]
  rw [searchField_step _ _ _ _ (by
    simp [matchFieldAt, matchKeyPre, stripLit, isPrefixOf_cons_eq, List.cons_append,
      sb_name, sb_number])]
  rw [searchField_step _ _ _ _ (by
    simp [matchFieldAt, matchKeyPre, stripLit, isPrefixOf_cons_eq, List.cons_append,
      sb_name, sb_number])]
  rw [searchField_block_skip _ _ (strBytes "number") _ (by rw [sb_number]; decide)]
  rw [searchField_step _ _ _ _ (by
    simp [matchFieldAt, matchKeyPre, stripLit, isPrefixOf_cons_eq, List.cons_append,
      sb_name])]
  rw [searchField_step _ _ _ _ (by
    simp [matchFieldAt, matchKeyPre, stripLit, isPrefixOf_cons_eq, List.cons_append,
      sb_name])]
  rw [searchField_block_skip _ _ (natDigits r.num) _ (natDigits_no34 r.num)]
  rw [searchField_step _ _ _ _ (by
    simp [matchFieldAt, matchKeyPre, stripLit, isPrefixOf_cons_eq, List.cons_append,
      sb_name])]
  rw [searchField_step _ _ _ _ (by
    simp [matchFieldAt, matchKeyPre, stripLit, isPrefixOf_cons_eq, List.cons_append,
      sb_name, sb_isDaytime])]
  rw [searchField_block_skip _ _ (strBytes "isDaytime") _ (by rw [sb_isDaytime]; decide)]
  rw [searchField_step _ _ _ _ (by
    simp [matchFieldAt, matchKeyPre, stripLit, isPrefixOf_cons_eq, List.cons_append,
      sb_name])]
  rw [searchField_step _ _ _ _ (by
    simp [matchFieldAt, matchKeyPre, stripLit, isPrefixOf_cons_eq, List.cons_append,
      sb_name])]
  rw [searchField_block_skip _ _ _ _ (boolLit_no34 r.isDay)]
  rw [searchField_step _ _ _ _ (by
    simp [matchFieldAt, matchKeyPre, stripLit, isPrefixOf_cons_eq, List.cons_append,
      sb_name])]
  rw [searchField_here _ _ _ r.name ?hv]
  case hv =>
    rw [dropWhile_not_ws_head _ _ (by decide)]
    exact valStrStar_exact r.name _ hname

theorem search_temp (r : PRec) (hname : ∀ b ∈ r.name, b ≠ 34) :
    searchField (strBytes "temperature") (valNum false) (serPeriod r) =
      some (natDigits r.temp) := by
  rw [serPeriod_canon]
  rw [searchField_step _ _ _ _ (by
    simp [matchFieldAt, matchKeyPre, stripLit, isPrefixOf_cons_eq, List.cons_append,
      sb_temperature, sb_number])]
  rw [searchField_step _ _ _ _ (by
    simp [matchFieldAt, matchKeyPre, stripLit, isPrefixOf_cons_eq, List.cons_append,
      sb_temperature, sb_number])]
  rw [searchField_block_skip _ _ (strBytes "number") _ (by rw [sb_number]; decide)]
  rw [searchField_step _ _ _ _ (by
    simp [matchFieldAt, matchKeyPre, stripLit, isPrefixOf_cons_eq, List.cons_append,
      sb_temperature])]
  rw [searchField_step _ _ _ _ (by
    simp [matchFieldAt, matchKeyPre, stripLit, isPrefixOf_cons_eq, List.cons_append,
      sb_temperature])]
  rw [searchField_block_skip _ _ (natDigits r.num) _ (natDigits_no34 r.num)]
  rw [searchField_step _ _ _ _ (by
    simp [matchFieldAt, matchKeyPre, stripLit, isPrefixOf_cons_eq, List.cons_append,
      sb_temperature])]
  rw [searchField_step _ _ _ _ (by
    simp [matchFieldAt, matchKeyPre, stripLit, isPrefixOf_cons_eq, List.cons_append,
      sb_temperature, sb_isDaytime])]
  rw [searchField_block_skip _ _ (strBytes "isDaytime") _ (by rw [sb_isDaytime]; decide)]
  rw [searchField_step _ _ _ _ (by
    simp [matchFieldAt, matchKeyPre, stripLit, isPrefixOf_cons_eq, List.cons_append,
      sb_temperature])]
  rw [searchField_step _ _ _ _ (by
    simp [matchFieldAt, matchKeyPre, stripLit, isPrefixOf_cons_eq, List.cons_append,
      sb_temperature])]
  rw [searchField_block_skip _ _ _ _ (boolLit_no34 r.isDay)]
  rw [searchField_step _ _ _ _ (by
    simp [matchFieldAt, matchKeyPre, stripLit, isPrefixOf_cons_eq, List.cons_append,
      sb_temperature])]
  rw [searchField_step _ _ _ _ (by
    simp [matchFieldAt, matchKeyPre, stripLit, isPrefixOf_cons_eq, List.cons_append,
      sb_temperature, sb_name])]
  rw [searchField_block_skip _ _ (strBytes "name") _ (by rw [sb_name]; decide)]
  rw [searchField_step _ _ _ _ (by
    simp [matchFieldAt, matchKeyPre, stripLit, isPrefixOf_cons_eq, List.cons_append,
      sb_temperature])]
  rw [searchField_step _ _ _ _ (by
    simp [matchFieldAt, matchKeyPre, stripLit, isPrefixOf_cons_eq, List.cons_append,
      sb_temperature])]
  rw [searchField_step _ _ _ _ (by
    simp only [matchFieldAt]
    rw [matchKeyPre_quoted_val_none (strBytes "temperature") r.name _
      (by rw [sb_temperature]; decide) hname]
    rfl)]
  rw [searchField_block_skip _ _ r.name _ hname]
  rw [searchField_step _ _ _ _ (by
    simp [matchFieldAt, matchKeyPre, stripLit, isPrefixOf_cons_eq, List.cons_append,
      sb_temperature])]
  rw [searchField_step _ _ _ _ (by
    simp [matchFieldAt, matchKeyPre, stripLit, isPrefixOf_cons_eq, List.cons_append,
      sb_temperature])]
  rw [searchField_here _ _ _ (natDigits r.temp) ?hv]
  case hv =>
    rw [dropWhile_ws_digits _ _ ((natDigits_spec r.temp).2.1) ((natDigits_spec r.temp).2.2)]
    exact valNum_false_exact _ 44 _
      (fun b hb => by
        have := (natDigits_spec r.temp).2.1 b hb
        simp [isDigitB]
        omega)
      ((natDigits_spec r.temp).2.2) (by decide)

theorem search_sf (r : PRec) (hname : ∀ b ∈ r.name, b ≠ 34)
    (hsf : ∀ b ∈ r.shortForecast, b ≠ 34) :
    searchField (strBytes "shortForecast") valStrStar (serPeriod r) =
      some r.shortForecast := by
  rw [serPeriod_canon]
  rw [searchField_step _ _ _ _ (by
    simp [matchFieldAt, matchKeyPre, stripLit, isPrefixOf_cons_eq, List.cons_append,
      sb_shortForecast, sb_number])]
  rw [searchField_step _ _ _ _ (by
    simp [matchFieldAt, matchKeyPre, stripLit, isPrefixOf_cons_eq, List.cons_append,
      sb_shortForecast, sb_number])]
  rw [searchField_block_skip _ _ (strBytes "number") _ (by rw [sb_number]; decide)]
  rw [searchField_step _ _ _ _ (by
    simp [matchFieldAt, matchKeyPre, stripLit, isPrefixOf_cons_eq, List.cons_append,
      sb_shortForecast])]
  rw [searchField_step _ _ _ _ (by
    simp [matchFieldAt, matchKeyPre, stripLit, isPrefixOf_cons_eq, List.cons_append,
      sb_shortForecast])]
  rw [searchField_block_skip _ _ (natDigits r.num) _ (natDigits_no34 r.num)]
  rw [searchField_step _ _ _ _ (by
    simp [matchFieldAt, matchKeyPre, stripLit, isPrefixOf_cons_eq, List.cons_append,
      sb_shortForecast])]
  rw [searchField_step _ _ _ _ (by
    simp [matchFieldAt, matchKeyPre, stripLit, isPrefixOf_cons_eq, List.cons_append,
      sb_shortForecast, sb_isDaytime])]
  rw [searchField_block_skip _ _ (strBytes "isDaytime") _ (by rw [sb_isDaytime]; decide)]
  rw [searchField_step _ _ _ _ (by
    simp [matchFieldAt, matchKeyPre, stripLit, isPrefixOf_cons_eq, List.cons_append,
      sb_shortForecast])]
  rw [searchField_step _ _ _ _ (by
    simp [matchFieldAt, matchKeyPre, stripLit, isPrefixOf_cons_eq, List.cons_append,
      sb_shortForecast])]
  rw [searchField_block_skip _ _ _ _ (boolLit_no34 r.isDay)]
  rw [searchField_step _ _ _ _ (by
    simp [matchFieldAt, matchKeyPre, stripLit, isPrefixOf_cons_eq, List.cons_append,
      sb_shortForecast])]
  rw [searchField_step _ _ _ _ (by
    simp [matchFieldAt, matchKeyPre, stripLit, isPrefixOf_cons_eq, List.cons_append,
      sb_shortForecast, sb_name])]
  rw [searchField_block_skip _ _ (strBytes "name") _ (by rw [sb_name]; decide)]
  rw [searchField_step _ _ _ _ (by
    simp [matchFieldAt, matchKeyPre, stripLit, isPrefixOf_cons_eq, List.cons_append,
      sb_shortForecast])]
  rw [searchField_step _ _ _ _ (by
    simp [matchFieldAt, matchKeyPre, stripLit, isPrefixOf_cons_eq, List.cons_append,
      sb_shortForecast])]
  rw [searchField_step _ _ _ _ (by
    simp only [matchFieldAt]
    rw [matchKeyPre_quoted_val_none (strBytes "shortForecast") r.name _
      (by rw [sb_shortForecast]; decide) hname]
    rfl)]
  rw [searchField_block_skip _ _ r.name _ hname]
  rw [searchField_step _ _ _ _ (by
    simp [matchFieldAt, matchKeyPre, stripLit, isPrefixOf_cons_eq, List.cons_append,
      sb_shortForecast])]
  rw [searchField_step _ _ _ _ (by
    simp [matchFieldAt, matchKeyPre, stripLit, isPrefixOf_cons_eq, List.cons_append,
      sb_shortForecast])]
  rw [searchField_step _ _ _ _ (by
    simp [matchFieldAt, matchKeyPre, stripLit, isPrefixOf_cons_eq, List.cons_append,
      sb_shortForecast, sb_temperature])]
  rw [searchField_block_skip _ _ (strBytes "temperature") _ (by rw [sb_temperature]; decide)]
  rw [searchField_step _ _ _ _ (by
    simp [matchFieldAt, matchKeyPre, stripLit, isPrefixOf_cons_eq, List.cons_append,
      sb_shortForecast])]
  rw [searchField_step _ _ _ _ (by
    simp [matchFieldAt, matchKeyPre, stripLit, isPrefixOf_cons_eq, List.cons_append,
      sb_shortForecast])]
  rw [searchField_block_skip _ _ (natDigits r.temp) _ (natDigits_no34 r.temp)]
  rw [searchField_step _ _ _ _ (by
    simp [matchFieldAt, matchKeyPre, stripLit, isPrefixOf_cons_eq, List.cons_append,
      sb_shortForecast])]
  rw [searchField_here _ _ _ r.shortForecast ?hv]
  case hv =>
    rw [dropWhile_not_ws_head _ _ (by decide)]
    exact valStrStar_exact r.shortForecast _ hsf

theorem extractStrField_name (r : PRec) (h : wfRec r) :
    extractStrField (strBytes "name") (serPeriod r) = .ok r.name := by
  have hname : ∀ b ∈ r.name, b ≠ 34 := fun b hb => (h.1 b hb).2.1
  simp [extractStrField, search_name r hname,
    ascii_utf8Valid r.name (fun b hb => (h.1 b hb).1)]

theorem extractStrField_sf (r : PRec) (h : wfRec r) :
    extractStrField (strBytes "shortForecast") (serPeriod r) = .ok r.shortForecast := by
  have hname : ∀ b ∈ r.name, b ≠ 34 := fun b hb => (h.1 b hb).2.1
  have hsf : ∀ b ∈ r.shortForecast, b ≠ 34 := fun b hb => (h.2 b hb).2.1
  simp [extractStrField, search_sf r hname hsf,
    ascii_utf8Valid r.shortForecast (fun b hb => (h.2 b hb).1)]

theorem extractIntField_ser (r : PRec) (h : wfRec r) :
    extractIntField (serPeriod r) = some r.temp := by
  have hname : ∀ b ∈ r.name, b ≠ 34 := fun b hb => (h.1 b hb).2.1
  simp [extractIntField, search_temp r hname, (natDigits_spec r.temp).1]

theorem extractBoolField_ser (r : PRec) :
    extractBoolField (serPeriod r) = r.isDay := by
  simp [extractBoolField, search_isDay r]

theorem processPeriod_ser (r : PRec) (h : wfRec r) (d n maxD maxN : Nat)
    (acc : List Period) :
    processPeriod (serPeriod r) d n maxD maxN acc =
      .ok (if r.isDay then
            (if d < maxD then (d + 1, n, acc ++ [toPeriod r]) else (d, n, acc))
          else
            (if n < maxN then (d, n + 1, acc ++ [toPeriod r]) else (d, n, acc))) := by
  cases hr : r.isDay <;> by_cases hd : d < maxD <;> by_cases hn : n < maxN <;>
    simp [processPeriod, extractStrField_name r h, extractStrField_sf r h,
      extractIntField_ser r h, extractBoolField_ser r, hr, hd, hn, toPeriod,
      Bind.bind, Except.bind, Pure.pure, Except.pure]

/-! ### Structure of the serialized record for the scanning loop -/

theorem serPeriod_mid (r : PRec) : serPeriod r = 123 :: (serMid r ++ [125]) := by
  rw [serPeriod_canon, serMid]
  simp

theorem serPeriod_dropLast (r : PRec) : (serPeriod r).dropLast = 123 :: serMid r := by
  rw [serPeriod_mid]
  rw [show (123 :: (serMid r ++ [125])) = (123 :: serMid r) ++ [125] from by simp]
  rw [List.dropLast_concat]

theorem serPeriod_length (r : PRec) : (serPeriod r).length = (serMid r).length + 2 := by
  rw [serPeriod_mid]
  simp

theorem noBrace_append {a b : Bytes} (ha : ∀ x ∈ a, x ≠ 123 ∧ x ≠ 125)
    (hb : ∀ x ∈ b, x ≠ 123 ∧ x ≠ 125) : ∀ x ∈ a ++ b, x ≠ 123 ∧ x ≠ 125 := by
  intro x hx
  rcases List.mem_append.mp hx with h | h
  · exact ha x h
  · exact hb x h

theorem noBrace_cons {c : Nat} {l : Bytes} (hc : c ≠ 123 ∧ c ≠ 125)
    (hl : ∀ x ∈ l, x ≠ 123 ∧ x ≠ 125) : ∀ x ∈ c :: l, x ≠ 123 ∧ x ≠ 125 := by
  intro x hx
  rcases List.mem_cons.mp hx with h | h
  · rw [h]; exact hc
  · exact hl x h

theorem natDigits_noBrace (n : Nat) : ∀ x ∈ natDigits n, x ≠ 123 ∧ x ≠ 125 := by
  intro x hx
  have := (natDigits_spec n).2.1 x hx
  omega

theorem boolLit_noBrace (b : Bool) :
    ∀ x ∈ (if b then strBytes "true" else strBytes "false"), x ≠ 123 ∧ x ≠ 125 := by
  cases b
  · rw [if_neg (by simp), sb_false]; decide
  · rw [if_pos rfl, sb_true]; decide

theorem serMid_no_braces (r : PRec) (h : wfRec r) :
    ∀ x ∈ serMid r, x ≠ 123 ∧ x ≠ 125 := by
  have hname : ∀ x ∈ r.name, x ≠ 123 ∧ x ≠ 125 :=
    fun x hx => ⟨(h.1 x hx).2.2.1, (h.1 x hx).2.2.2⟩
  have hsf : ∀ x ∈ r.shortForecast, x ≠ 123 ∧ x ≠ 125 :=
    fun x hx => ⟨(h.2 x hx).2.2.1, (h.2 x hx).2.2.2⟩
  rw [serMid]
  refine noBrace_cons (by decide) ?_
  refine noBrace_append (by rw [sb_number]; decide) ?_
  refine noBrace_cons (by decide) ?_
  refine noBrace_cons (by decide) ?_
  refine noBrace_append (natDigits_noBrace r.num) ?_
  refine noBrace_cons (by decide) ?_
  refine noBrace_cons (by decide) ?_
  refine noBrace_append (by rw [sb_isDaytime]; decide) ?_
  refine noBrace_cons (by decide) ?_
  refine noBrace_cons (by decide) ?_
  refine noBrace_append (boolLit_noBrace r.isDay) ?_
  refine noBrace_cons (by decide) ?_
  refine noBrace_cons (by decide) ?_
  refine noBrace_append (by rw [sb_name]; decide) ?_
  refine noBrace_cons (by decide) ?_
  refine noBrace_cons (by decide) ?_
  refine noBrace_cons (by decide) ?_
  refine noBrace_append hname ?_
  refine noBrace_cons (by decide) ?_
  refine noBrace_cons (by decide) ?_
  refine noBrace_cons (by decide) ?_
  refine noBrace_append (by rw [sb_temperature]; decide) ?_
  refine noBrace_cons (by decide) ?_
  refine noBrace_cons (by decide) ?_
  refine noBrace_append (natDigits_noBrace r.temp) ?_
  refine noBrace_cons (by decide) ?_
  refine noBrace_cons (by decide) ?_
  refine noBrace_append (by rw [sb_shortForecast]; decide) ?_
  refine noBrace_cons (by decide) ?_
  refine noBrace_cons (by decide) ?_
  refine noBrace_cons (by decide) ?_
  refine noBrace_append hsf (by decide)

theorem balGo_serPeriod (r : PRec) (h : wfRec r) (w : Bytes) :
    balGo (serPeriod r ++ w) 0 0 false = some ((serMid r).length + 1) := by
  rw [serPeriod_mid]
  rw [show (123 :: (serMid r ++ [125])) ++ w = 123 :: (serMid r ++ (125 :: w)) from by simp]
  rw [show balGo (123 :: (serMid r ++ (125 :: w))) 0 0 false
      = balGo (serMid r ++ (125 :: w)) 1 1 true from by simp [balGo]]
  rw [balGo_skip _ _ _ _ _ (serMid_no_braces r h)]
  simp [balGo]
  omega

theorem balGo_dropLast_none (r : PRec) (h : wfRec r) :
    balGo ((serPeriod r).dropLast) 0 0 false = none := by
  rw [serPeriod_dropLast]
  rw [show balGo (123 :: serMid r) 0 0 false = balGo (serMid r) 1 1 true from by
    simp [balGo]]
  exact balGo_none _ _ _ _ (serMid_no_braces r h)

theorem take_add (buf : Bytes) (idx k : Nat) (h : idx ≤ buf.length) :
    buf.take (idx + k) = buf.take idx ++ (buf.drop idx).take k := by
  have h1 : (buf.take idx).length = idx := by
    simp [List.length_take]
    omega
  conv_lhs => rw [← List.take_append_drop idx buf]
  rw [show idx + k = (buf.take idx).length + k from by rw [h1]]
  exact List.take_append k

theorem drop_add (buf : Bytes) (idx k : Nat) : buf.drop (idx + k) = (buf.drop idx).drop k := by
  rw [List.drop_drop]

theorem serComma_cons (r : PRec) (rs : List PRec) :
    serComma (r :: rs) = serPeriod r ++ (44 :: serComma rs) := by
  simp [serComma]

theorem serComma_nil : serComma [] = [] := rfl

theorem serMid_shape (r : PRec) :
    ∃ z, serMid r = 34 :: (strBytes "number" ++ (34 :: 58 :: z)) := by
  unfold serMid
  exact ⟨_, rfl⟩

theorem firstOcc_patNumber_head (z : Bytes) :
    firstOcc patNumber (123 :: 34 :: (strBytes "number" ++ (34 :: 58 :: z))) = some 1 := by
  rw [show patNumber = [34, 110, 117, 109, 98, 101, 114, 34, 58] from by decide, sb_number]
  simp [firstOcc, isPrefixOf_cons_eq, isPrefixOf_nil_left, List.cons_append]

theorem firstOcc_patNumber_serP (r : PRec) (w : Bytes) :
    firstOcc patNumber (serPeriod r ++ w) = some 1 := by
  obtain ⟨z, hz⟩ := serMid_shape r
  rw [serPeriod_mid, hz]
  rw [show (123 :: ((34 :: (strBytes "number" ++ (34 :: 58 :: z))) ++ [125])) ++ w
      = 123 :: 34 :: (strBytes "number" ++ (34 :: 58 :: (z ++ (125 :: w)))) from by simp]
  exact firstOcc_patNumber_head _

theorem firstOcc_patNumber_dropLast (r : PRec) :
    firstOcc patNumber ((serPeriod r).dropLast) = some 1 := by
  obtain ⟨z, hz⟩ := serMid_shape r
  rw [serPeriod_dropLast, hz]
  exact firstOcc_patNumber_head _
theorem innerLoop_step (f : Nat) (buf : Bytes) (idx dayC nightC maxNight maxDay : Nat)
    (acc : List Period) :
    innerLoop (f + 1) buf idx true dayC nightC maxNight maxDay acc =
      match bfind patNumber buf idx with
      | none => .ok (.more idx true dayC nightC acc)
      | some numIdx =>
        match (match brfind 123 buf numIdx with
               | none => bfind [123] buf numIdx
               | some s => if s < idx then bfind [123] buf numIdx else some s) with
        | none => .ok (.more idx true dayC nightC acc)
        | some so =>
          match findBalanced buf so with
          | none => .ok (.more idx true dayC nightC acc)
          | some eo =>
            match processPeriod (bslice buf so (eo + 1)) dayC nightC maxDay maxNight acc with
            | .error e => .error e
            | .ok (d1, n1, acc1) =>
              if d1 ≥ maxDay ∧ n1 ≥ maxNight then .ok (.done acc1)
              else innerLoop f buf (eo + 1) true d1 n1 maxNight maxDay acc1 := by
  rfl
theorem patNumber_head : patNumber.head? = some 34 := by decide

theorem take_one_cons_append (c : Nat) (a b : Bytes) : ((c :: a) ++ b).take 1 = [c] := by
  simp

theorem drop_eq_of_append (P X : Bytes) (n : Nat) (h : P.length = n) : (P ++ X).drop n = X := by
  subst h
  exact List.drop_left _ _

theorem innerLoop_run (maxDay maxNight : Nat) (last : PRec) (hlast : wfRec last)
    (buf : Bytes) :
    ∀ (rem : List PRec) (junk : Bytes) (idx dayC nightC : Nat)
      (acc : List Period) (fuel : Nat),
      (∀ r ∈ rem, wfRec r) →
      (∀ b ∈ junk, b ≠ 34 ∧ b ≠ 123) →
      buf.drop idx = junk ++ (serComma rem ++ (serPeriod last).dropLast) →
      rem.length + 1 ≤ fuel →
      (innerLoop fuel buf idx true dayC nightC maxNight maxDay acc =
          .ok (.done (acc ++ capFilter maxDay maxNight dayC nightC rem))) ∨
      (∃ i d1 n1, innerLoop fuel buf idx true dayC nightC maxNight maxDay acc =
          .ok (.more i true d1 n1 (acc ++ capFilter maxDay maxNight dayC nightC rem))) := by
  intro rem
  induction rem with
  | nil =>
    intro junk idx dayC nightC acc fuel _ hjunk hshape hfuel
    cases fuel with
    | zero => omega
    | succ f =>
      right
      have hS : buf.drop idx = junk ++ (serPeriod last).dropLast := by
        simpa [serComma_nil] using hshape
      have hidx : idx ≤ buf.length := by
        by_contra hgt
        have : buf.drop idx = [] := List.drop_eq_nil_of_le (by omega)
        rw [hS, serPeriod_dropLast] at this
        simp at this
      have hnum : bfind patNumber buf idx = some (1 + junk.length + idx) := by
        unfold bfind
        rw [hS, firstOcc_append_notin patNumber 34 patNumber_head junk _
          (fun b hb => (hjunk b hb).1), firstOcc_patNumber_dropLast]
        rfl
      have hrf : brfind 123 buf (1 + junk.length + idx) = some (idx + junk.length) := by
        unfold brfind
        rw [show 1 + junk.length + idx = idx + (junk.length + 1) from by omega]
        rw [take_add buf idx (junk.length + 1) hidx, hS]
        rw [show (junk ++ (serPeriod last).dropLast).take (junk.length + 1)
            = junk ++ ((serPeriod last).dropLast).take 1 from List.take_append 1]
        rw [serPeriod_dropLast]
        rw [show (123 :: serMid last).take 1 = [123] from by simp]
        rw [show buf.take idx ++ (junk ++ [123]) = (buf.take idx ++ junk) ++ [123] from by
          simp]
        rw [lastOccByte_concat]
        have : (buf.take idx ++ junk).length = idx + junk.length := by
          simp [List.length_take]
          omega
        rw [this]
      have hdropso : buf.drop (idx + junk.length) = (serPeriod last).dropLast := by
        rw [drop_add, hS, List.drop_left]
      have hbal : findBalanced buf (idx + junk.length) = none := by
        unfold findBalanced
        rw [hdropso, balGo_dropLast_none last hlast]
        rfl
      refine ⟨idx, dayC, nightC, ?_⟩
      rw [innerLoop_step, hnum]
      simp only [hrf]
      rw [if_neg (by omega)]
      simp only [hbal]
      simp [capFilter]
  | cons r rest ih =>
    intro junk idx dayC nightC acc fuel hwf hjunk hshape hfuel
    cases fuel with
    | zero => simp at hfuel
    | succ f =>
      have hwfr : wfRec r := hwf r (by simp)
      have hS : buf.drop idx
          = junk ++ (serPeriod r ++ (44 :: (serComma rest ++ (serPeriod last).dropLast))) := by
        rw [hshape, serComma_cons]
        simp
      have hidx : idx ≤ buf.length := by
        by_contra hgt
        have : buf.drop idx = [] := List.drop_eq_nil_of_le (by omega)
        rw [hS, serPeriod_mid] at this
        simp at this
      have hnum : bfind patNumber buf idx = some (1 + junk.length + idx) := by
        unfold bfind
        rw [hS, firstOcc_append_notin patNumber 34 patNumber_head junk _
          (fun b hb => (hjunk b hb).1), firstOcc_patNumber_serP]
        rfl
      have hrf : brfind 123 buf (1 + junk.length + idx) = some (idx + junk.length) := by
        unfold brfind
        rw [show 1 + junk.length + idx = idx + (junk.length + 1) from by omega]
        rw [take_add buf idx (junk.length + 1) hidx, hS]
        rw [show (junk ++ (serPeriod r ++ (44 :: (serComma rest ++ (serPeriod last).dropLast)))).take (junk.length + 1)
            = junk ++ (serPeriod r ++ (44 :: (serComma rest ++ (serPeriod last).dropLast))).take 1 from
          List.take_append 1]
        rw [serPeriod_mid r, take_one_cons_append]
        rw [show buf.take idx ++ (junk ++ [123]) = (buf.take idx ++ junk) ++ [123] from by
          simp]
        rw [lastOccByte_concat]
        have : (buf.take idx ++ junk).length = idx + junk.length := by
          simp [List.length_take]
          omega
        rw [this]
      have hdropso : buf.drop (idx + junk.length)
          = serPeriod r ++ (44 :: (serComma rest ++ (serPeriod last).dropLast)) := by
        rw [drop_add, hS, List.drop_left]
      have hbal : findBalanced buf (idx + junk.length)
          = some ((serMid r).length + 1 + (idx + junk.length)) := by
        unfold findBalanced
        rw [hdropso, balGo_serPeriod r hwfr]
        rfl
      have hsoLen : idx + junk.length ≤ buf.length := by
        have h1 : (buf.drop (idx + junk.length)).length = buf.length - (idx + junk.length) := by
          simp
        rw [hdropso] at h1
        have h2 : 0 < (serPeriod r ++ (44 :: (serComma rest ++ (serPeriod last).dropLast))).length := by
          rw [serPeriod_mid]
          simp
        omega
      have hslice : bslice buf (idx + junk.length)
          ((serMid r).length + 1 + (idx + junk.length) + 1) = serPeriod r := by
        unfold bslice
        rw [show (serMid r).length + 1 + (idx + junk.length) + 1
            = (idx + junk.length) + (serPeriod r).length from by
          rw [serPeriod_length]; omega]
        rw [take_add buf (idx + junk.length) (serPeriod r).length hsoLen, hdropso]
        rw [show (serPeriod r ++ (44 :: (serComma rest ++ (serPeriod last).dropLast))).take (serPeriod r).length
            = serPeriod r from List.take_left _ _]
        exact drop_eq_of_append _ _ _ (by simp [List.length_take]; omega)
      have hdropeo : buf.drop ((serMid r).length + 1 + (idx + junk.length) + 1)
          = 44 :: (serComma rest ++ (serPeriod last).dropLast) := by
        rw [show (serMid r).length + 1 + (idx + junk.length) + 1
            = (idx + junk.length) + (serPeriod r).length from by
          rw [serPeriod_length]; omega]
        rw [drop_add, hdropso, List.drop_left]
      -- run one iteration
      rw [innerLoop_step, hnum]
      simp only [hrf]
      rw [if_neg (by omega)]
      simp only [hbal, hslice]
      rw [processPeriod_ser r hwfr]
      -- case analysis on the classification
      rcases hday : r.isDay <;> simp only [hday, Bool.false_eq_true, if_true, if_false]
      · by_cases hn : nightC < maxNight
        · rw [if_pos hn]
          by_cases hcaps : dayC ≥ maxDay ∧ nightC + 1 ≥ maxNight
          · rw [if_pos hcaps]
            left
            have hsat : capFilter maxDay maxNight dayC (nightC + 1) rest = [] :=
              capFilter_saturated rest _ _ _ _ hcaps.1 hcaps.2
            simp [capFilter, hday, hn, hsat]
          · rw [if_neg hcaps]
            have := ih [44] ((serMid r).length + 1 + (idx + junk.length) + 1)
              dayC (nightC + 1) (acc ++ [toPeriod r]) f
              (fun x hx => hwf x (by simp [hx])) (by decide)
              (by rw [hdropeo]; simp) (by simp at hfuel; omega)
            rcases this with h | ⟨i, d1, n1, h⟩
            · left
              rw [h]
              simp [capFilter, hday, hn]
            · right
              exact ⟨i, d1, n1, by rw [h]; simp [capFilter, hday, hn]⟩
        · rw [if_neg hn]
          by_cases hcaps : dayC ≥ maxDay ∧ nightC ≥ maxNight
          · rw [if_pos hcaps]
            left
            have hsat : capFilter maxDay maxNight dayC nightC rest = [] :=
              capFilter_saturated rest _ _ _ _ hcaps.1 hcaps.2
            simp [capFilter, hday, hn, hsat]
          · rw [if_neg hcaps]
            have := ih [44] ((serMid r).length + 1 + (idx + junk.length) + 1)
              dayC nightC acc f
              (fun x hx => hwf x (by simp [hx])) (by decide)
              (by rw [hdropeo]; simp) (by simp at hfuel; omega)
            rcases this with h | ⟨i, d1, n1, h⟩
            · left
              rw [h]
              simp [capFilter, hday, hn]
            · right
              exact ⟨i, d1, n1, by rw [h]; simp [capFilter, hday, hn]⟩
      · by_cases hd : dayC < maxDay
        · rw [if_pos hd]
          by_cases hcaps : dayC + 1 ≥ maxDay ∧ nightC ≥ maxNight
          · rw [if_pos hcaps]
            left
            have hsat : capFilter maxDay maxNight (dayC + 1) nightC rest = [] :=
              capFilter_saturated rest _ _ _ _ hcaps.1 hcaps.2
            simp [capFilter, hday, hd, hsat]
          · rw [if_neg hcaps]
            have := ih [44] ((serMid r).length + 1 + (idx + junk.length) + 1)
              (dayC + 1) nightC (acc ++ [toPeriod r]) f
              (fun x hx => hwf x (by simp [hx])) (by decide)
              (by rw [hdropeo]; simp) (by simp at hfuel; omega)
            rcases this with h | ⟨i, d1, n1, h⟩
            · left
              rw [h]
              simp [capFilter, hday, hd]
            · right
              exact ⟨i, d1, n1, by rw [h]; simp [capFilter, hday, hd]⟩
        · rw [if_neg hd]
          by_cases hcaps : dayC ≥ maxDay ∧ nightC ≥ maxNight
          · rw [if_pos hcaps]
            left
            have hsat : capFilter maxDay maxNight dayC nightC rest = [] :=
              capFilter_saturated rest _ _ _ _ hcaps.1 hcaps.2
            simp [capFilter, hday, hd, hsat]
          · rw [if_neg hcaps]
            have := ih [44] ((serMid r).length + 1 + (idx + junk.length) + 1)
              dayC nightC acc f
              (fun x hx => hwf x (by simp [hx])) (by decide)
              (by rw [hdropeo]; simp) (by simp at hfuel; omega)
            rcases this with h | ⟨i, d1, n1, h⟩
            · left
              rw [h]
              simp [capFilter, hday, hd]
            · right
              exact ⟨i, d1, n1, by rw [h]; simp [capFilter, hday, hd]⟩
theorem innerLoop_anchor (f : Nat) (buf : Bytes) (idx idx1 dayC nightC maxNight maxDay : Nat)
    (acc : List Period)
    (h : (bfind patPeriods buf idx).map (· + patPeriods.length) = some idx1) :
    innerLoop (f + 1) buf idx false dayC nightC maxNight maxDay acc =
      innerLoop (f + 1) buf idx1 true dayC nightC maxNight maxDay acc := by
  conv_lhs => rw [innerLoop]
  conv_rhs => rw [innerLoop]
  simp only [Bool.false_eq_true, if_false, if_true, h]

theorem firstOcc_self (pat z : Bytes) (hne : pat ≠ []) : firstOcc pat (pat ++ z) = some 0 := by
  cases pat with
  | nil => exact absurd rfl hne
  | cons a t =>
    rw [List.cons_append]
    rw [show firstOcc (a :: t) (a :: (t ++ z))
        = if (a :: t).isPrefixOf (a :: (t ++ z)) then some 0
          else (firstOcc (a :: t) (t ++ z)).map (· + 1) from rfl]
    rw [show (a :: t).isPrefixOf (a :: (t ++ z)) = true from by
      rw [show a :: (t ++ z) = (a :: t) ++ z from by simp]
      exact isPrefixOf_self_append _ _]
    rfl

theorem firstOcc_patPeriods (z : Bytes) : firstOcc patPeriods (docPre ++ z) = some 1 := by
  rw [show docPre = 123 :: patPeriods from by decide, List.cons_append]
  rw [show firstOcc patPeriods (123 :: (patPeriods ++ z))
      = (firstOcc patPeriods (patPeriods ++ z)).map (· + 1) from by
    rw [show patPeriods = 34 :: strBytes "periods\": [" from by decide]
    simp [firstOcc, isPrefixOf_cons_eq]]
  rw [firstOcc_self _ _ (by decide)]
  rfl
theorem serComma_length_ge (rs : List PRec) : rs.length ≤ (serComma rs).length := by
  induction rs with
  | nil => simp [serComma_nil]
  | cons r rest ih =>
    rw [serComma_cons]
    have h1 : (serPeriod r).length = (serMid r).length + 2 := serPeriod_length r
    simp
    omega

/-- C8 amended: for every document whose periods array holds the records of
done fully closed and one further record truncated immediately before its
closing brace, delivered as a single chunk (so that no chunk boundary falls
exactly at a record's closing brace, which the cursor-reset defect of line
1682 would duplicate — see the counterexample), extract_forecast_periods_stream
returns exactly the previously fully-closed accepted records (the cap
filter over done) and raises no error. -/
theorem claim8_amended (done : List PRec) (last : PRec) (maxNight maxDay : Nat)
    (hwf : ∀ r ∈ done, wfRec r) (hlast : wfRec last)
    (hlen : (truncDoc done last).length ≤ 4096) :
    extractPeriodsStream [truncDoc done last] maxNight maxDay 4096 =
      .ok (capFilter maxDay maxNight 0 0 done) := by
  have hne : (truncDoc done last).isEmpty = false := by
    rw [truncDoc, show docPre = 123 :: patPeriods from by decide]
    simp
  have hanchor : (bfind patPeriods (truncDoc done last) 0).map (· + patPeriods.length)
      = some 13 := by
    unfold bfind
    rw [List.drop_zero, truncDoc, List.append_assoc, firstOcc_patPeriods]
    rfl
  have hshape : (truncDoc done last).drop 13
      = [] ++ (serComma done ++ (serPeriod last).dropLast) := by
    rw [truncDoc, List.append_assoc, List.nil_append]
    exact drop_eq_of_append _ _ _ (by decide)
  have hfuel : done.length + 1 ≤ (truncDoc done last).length + 1 + 1 := by
    have h1 := serComma_length_ge done
    have h2 : (serComma done).length ≤ (truncDoc done last).length := by
      rw [truncDoc]
      simp
      omega
    omega
  simp only [extractPeriodsStream, outerLoop, hne, Bool.false_eq_true, if_false,
    List.nil_append]
  rw [if_neg (by omega)]
  rw [show (truncDoc done last).length + 2 = ((truncDoc done last).length + 1) + 1 from rfl]
  rw [innerLoop_anchor _ _ _ _ _ _ _ _ _ hanchor]
  rcases innerLoop_run maxDay maxNight last hlast (truncDoc done last) done [] 13 0 0 []
      ((truncDoc done last).length + 1 + 1) hwf (by simp) hshape hfuel with h | ⟨i, d1, n1, h⟩
  · rw [h]
    simp
  · rw [h]
    simp
/-- C9: within extract_forecast_periods_stream, a closed record object whose
text contains no parseable isDaytime field is classified as nighttime:
processPeriod (the per-object classification step the scanning loop runs on
every closed object) leaves the day counter unchanged, and — when it
succeeds — appends a record with isDaytime = false while the night counter
is below its cap, counting against the night cap and never the day cap. -/
theorem claim9_missing_isDaytime_is_night (text : Bytes) (dayC nightC maxDay maxNight : Nat) (acc : List Period)
    (dayC1 nightC1 : Nat) (acc1 : List Period)
    (hno : searchField (strBytes "isDaytime") valBool text = none)
    (hok : processPeriod text dayC nightC maxDay maxNight acc = .ok (dayC1, nightC1, acc1)) :
    dayC1 = dayC ∧
    (nightC < maxNight →
      nightC1 = nightC + 1 ∧ ∃ p : Period, p.isDaytime = false ∧ acc1 = acc ++ [p]) ∧
    (¬ nightC < maxNight → nightC1 = nightC ∧ acc1 = acc) := by
  have hbool : extractBoolField text = false := by
    simp [extractBoolField, hno]
  rcases h1 : extractStrField (strBytes "name") text with _ | name
  · rw [processPeriod] at hok
    rw [h1] at hok
    simp [Bind.bind, Except.bind] at hok
  · rcases h2 : extractStrField (strBytes "shortForecast") text with _ | sf
    · rw [processPeriod] at hok
      rw [h1, h2] at hok
      simp [Bind.bind, Except.bind] at hok
    · rw [processPeriod] at hok
      rw [h1, h2, hbool] at hok
      by_cases hn : nightC < maxNight
      · simp [Bind.bind, Except.bind, Pure.pure, Except.pure, hn] at hok
        refine ⟨hok.1.symm, fun _ => ⟨hok.2.1.symm, ?_⟩, fun hc => absurd hn hc⟩
        exact ⟨⟨name, sf, extractIntField text, false⟩, rfl, hok.2.2.symm⟩
      · simp [Bind.bind, Except.bind, Pure.pure, Except.pure, hn] at hok
        exact ⟨hok.1.symm, fun hc => absurd hc hn, fun _ => ⟨hok.2.1.symm, hok.2.2.symm⟩⟩
theorem utf8Valid_single_high (b : Nat) (h1 : 128 ≤ b) (h2 : b ≤ 255) :
    utf8Valid [b] = false := by
  have hstep : utf8Step [b] = none := by
    simp only [utf8Step]
    split_ifs with ha hb hc hd he
    · exact absurd ha (by omega)
    · rfl
    · rfl
    · rfl
    · rfl
    · rfl
  simp [utf8Valid, utf8Go, hstep]

/-- C7 amended: a decoding failure is NOT caught.  For every byte b in
0x80..0xff, a stream whose matched value is the single byte b (never valid
utf-8 on its own) makes extract_first_json_string_value_stream raise the
decode exception to its caller (Except.error) instead of yielding None. -/
theorem claim7_amended (b : Nat) (h1 : 128 ≤ b) (h2 : b ≤ 255) :
    extractStrStream [strBytes "\x7b\"k\":\"" ++ [b] ++ strBytes "\"\x7d"] (strBytes "k") =
      .error () := by
  have hc : strBytes "\x7b\"k\":\"" ++ [b] ++ strBytes "\"\x7d"
      = 123 :: (34 :: (strBytes "k" ++ (34 :: 58 :: (34 :: ([b] ++ 34 :: [125]))))) := by
    rw [show strBytes "\x7b\"k\":\"" = [123, 34, 107, 34, 58, 34] from by decide,
      show strBytes "\"\x7d" = [34, 125] from by decide,
      show strBytes "k" = [107] from by decide]
    simp
  have hsearch : searchField (strBytes "k") valStrPlus
      (strBytes "\x7b\"k\":\"" ++ [b] ++ strBytes "\"\x7d") = some [b] := by
    rw [hc]
    rw [searchField_cons_skip _ _ _ _ (by decide)]
    rw [searchField_here _ _ _ [b] ?hv]
    case hv =>
      rw [dropWhile_not_ws_head _ _ (by decide)]
      exact valStrPlus_exact [b] [125] (by intro x hx; simp at hx; omega) (by simp)
  have hlen : (strBytes "\x7b\"k\":\"" ++ [b] ++ strBytes "\"\x7d").length = 9 := by
    rw [hc]
    simp [show strBytes "k" = [107] from by decide]
  have hne : (strBytes "\x7b\"k\":\"" ++ [b] ++ strBytes "\"\x7d").isEmpty = false := by
    rw [hc]
    rfl
  rw [extractStrStream]
  rw [show extractStrGo (strBytes "k")
      [strBytes "\x7b\"k\":\"" ++ [b] ++ strBytes "\"\x7d"] [] =
      (if (strBytes "\x7b\"k\":\"" ++ [b] ++ strBytes "\"\x7d").isEmpty then
        Except.ok none
      else
        (let buf1 := [] ++ (strBytes "\x7b\"k\":\"" ++ [b] ++ strBytes "\"\x7d")
         let buf2 := if buf1.length > 4096 then buf1.drop (buf1.length - 4096) else buf1
         match searchField (strBytes "k") valStrPlus buf2 with
         | some v => if utf8Valid v then .ok (some v) else .error ()
         | none => extractStrGo (strBytes "k") [] buf2)) from rfl]
  rw [hne]
  simp only [Bool.false_eq_true, if_false, List.nil_append]
  rw [if_neg (by rw [hlen]; omega)]
  rw [hsearch]
  simp [utf8Valid_single_high b h1 h2]
theorem valStrPlus_ne_nil : ∀ (r v : Bytes), valStrPlus r = some v → v ≠ [] := by
  intro r v h hnil
  subst hnil
  rcases r with _ | ⟨c, r1⟩
  · simp [valStrPlus] at h
  · by_cases hc : c = 34
    · subst hc
      rw [show valStrPlus (34 :: r1)
          = (if (r1.takeWhile (fun b => b != 34)).isEmpty then none
             else
               match r1.drop (r1.takeWhile (fun b => b != 34)).length with
               | 34 :: _ => some (r1.takeWhile (fun b => b != 34))
               | _ => none) from rfl] at h
      by_cases he : (r1.takeWhile (fun b => b != 34)).isEmpty
      · rw [if_pos he] at h
        exact Option.noConfusion h
      · rw [if_neg he] at h
        split at h
        · have : (r1.takeWhile (fun b => b != 34)) = [] := Option.some.inj h
          rw [this] at he
          exact he rfl
        · exact Option.noConfusion h
    · have hnone : valStrPlus (c :: r1) = none := by
        unfold valStrPlus
        split
        · rename_i heq
          exact absurd (List.cons.inj heq).1 hc
        · rfl
      rw [hnone] at h
      exact Option.noConfusion h

theorem searchWith_some {α} (m : Bytes → Option α) :
    ∀ (l : Bytes) (v : α), searchWith m l = some v → ∃ l1, m l1 = some v := by
  intro l
  induction l with
  | nil => intro v h; simp [searchWith] at h
  | cons c t ih =>
    intro v h
    rw [show searchWith m (c :: t)
        = (match m (c :: t) with | some v => some v | none => searchWith m t) from rfl] at h
    rcases hm : m (c :: t) with _ | w
    · rw [hm] at h
      exact ih v h
    · rw [hm] at h
      cases h
      exact ⟨c :: t, hm⟩

theorem searchPlus_ne_nil (key buf v : Bytes)
    (h : searchField key valStrPlus buf = some v) : v ≠ [] := by
  obtain ⟨l1, hl1⟩ := searchWith_some _ buf v h
  rw [matchFieldAt] at hl1
  rcases hk : matchKeyPre key l1 with _ | r1
  · rw [hk] at hl1
    exact Option.noConfusion hl1
  · rw [hk] at hl1
    replace hl1 : valStrPlus r1 = some v := hl1
    exact valStrPlus_ne_nil r1 v hl1

theorem extractStrGo_ne_empty (key : Bytes) :
    ∀ (chunks : List Bytes) (buf : Bytes),
      extractStrGo key chunks buf ≠ .ok (some []) := by
  intro chunks
  induction chunks with
  | nil => intro buf h; simp [extractStrGo] at h
  | cons c rest ih =>
    intro buf h
    by_cases hempty : c.isEmpty
    · rw [show extractStrGo key (c :: rest) buf
          = (if c.isEmpty then Except.ok none
             else
               match searchField key valStrPlus
                   (if (buf ++ c).length > 4096 then (buf ++ c).drop ((buf ++ c).length - 4096)
                    else buf ++ c) with
               | some v => if utf8Valid v then .ok (some v) else .error ()
               | none =>
                 extractStrGo key rest
                   (if (buf ++ c).length > 4096 then (buf ++ c).drop ((buf ++ c).length - 4096)
                    else buf ++ c)) from rfl, if_pos hempty] at h
      exact Option.noConfusion (Except.ok.inj h)
    · rw [show extractStrGo key (c :: rest) buf
          = (if c.isEmpty then Except.ok none
             else
               match searchField key valStrPlus
                   (if (buf ++ c).length > 4096 then (buf ++ c).drop ((buf ++ c).length - 4096)
                    else buf ++ c) with
               | some v => if utf8Valid v then .ok (some v) else .error ()
               | none =>
                 extractStrGo key rest
                   (if (buf ++ c).length > 4096 then (buf ++ c).drop ((buf ++ c).length - 4096)
                    else buf ++ c)) from rfl, if_neg hempty] at h
      rcases hs : searchField key valStrPlus
          (if (buf ++ c).length > 4096 then (buf ++ c).drop ((buf ++ c).length - 4096)
           else buf ++ c) with _ | v
      · rw [hs] at h
        exact ih _ h
      · rw [hs] at h
        replace h : (if utf8Valid v then Except.ok (some v) else Except.error ())
            = Except.ok (some ([] : Bytes)) := h
        by_cases hv : utf8Valid v
        · rw [if_pos hv] at h
          exact searchPlus_ne_nil key _ v hs (Option.some.inj (Except.ok.inj h))
        · rw [if_neg hv] at h
          exact Except.noConfusion h
theorem extractStrGo_cons (key c : Bytes) (rest : List Bytes) (buf : Bytes) :
    extractStrGo key (c :: rest) buf =
      (if c.isEmpty then Except.ok none
       else
         match searchField key valStrPlus
             (if (buf ++ c).length > 4096 then (buf ++ c).drop ((buf ++ c).length - 4096)
              else buf ++ c) with
         | some v => if utf8Valid v then .ok (some v) else .error ()
         | none =>
           extractStrGo key rest
             (if (buf ++ c).length > 4096 then (buf ++ c).drop ((buf ++ c).length - 4096)
              else buf ++ c)) := rfl

theorem extractStrStream_single (doc key : Bytes) (hlen : doc.length ≤ 4096) :
    extractStrStream [doc] key =
      match searchField key valStrPlus doc with
      | some v => if utf8Valid v then .ok (some v) else .error ()
      | none => .ok none := by
  cases doc with
  | nil => rfl
  | cons b t =>
    have hlen' : t.length + 1 ≤ 4096 := by simpa using hlen
    rw [extractStrStream, extractStrGo_cons]
    rw [if_neg (by simp)]
    rw [show (([] : Bytes) ++ (b :: t)) = b :: t from by simp]
    rw [if_neg (by simp only [List.length_cons]; omega)]
    rcases hs : searchField key valStrPlus (b :: t) with _ | v
    · rfl
    · rfl
theorem take_eq_of_append (P X : Bytes) (n : Nat) (h : P.length = n) : (P ++ X).take n = P := by
  subst h
  exact List.take_left _ _

theorem fetchStationGo_cons (c : Bytes) (rest : List Bytes) (buf : Bytes) :
    fetchStationGo (c :: rest) buf =
      (if c.isEmpty then .ok none
       else
         match bfind idKeyPat
             (if (buf ++ c).length > 4096 then (buf ++ c).drop ((buf ++ c).length - 4096)
              else buf ++ c) 0 with
         | none =>
           fetchStationGo rest
             (if (buf ++ c).length > 4096 then (buf ++ c).drop ((buf ++ c).length - 4096)
              else buf ++ c)
         | some idx =>
           match bfind [34]
               (if (buf ++ c).length > 4096 then (buf ++ c).drop ((buf ++ c).length - 4096)
                else buf ++ c) (idx + idKeyPat.length) with
           | none =>
             fetchStationGo rest
               (if (buf ++ c).length > 4096 then (buf ++ c).drop ((buf ++ c).length - 4096)
                else buf ++ c)
           | some sq =>
             match bfind [34]
                 (if (buf ++ c).length > 4096 then (buf ++ c).drop ((buf ++ c).length - 4096)
                  else buf ++ c) (sq + 1) with
             | none =>
               fetchStationGo rest
                 (if (buf ++ c).length > 4096 then (buf ++ c).drop ((buf ++ c).length - 4096)
                  else buf ++ c)
             | some eq =>
               if utf8Valid (bslice
                   (if (buf ++ c).length > 4096 then (buf ++ c).drop ((buf ++ c).length - 4096)
                    else buf ++ c) (sq + 1) eq) then
                 if hasSub stationsPat (bslice
                     (if (buf ++ c).length > 4096 then (buf ++ c).drop ((buf ++ c).length - 4096)
                      else buf ++ c) (sq + 1) eq) then
                   .ok (some (lastSeg (bslice
                     (if (buf ++ c).length > 4096 then (buf ++ c).drop ((buf ++ c).length - 4096)
                      else buf ++ c) (sq + 1) eq)))
                 else
                   fetchStationGo rest
                     ((if (buf ++ c).length > 4096 then (buf ++ c).drop ((buf ++ c).length - 4096)
                       else buf ++ c).drop (eq + 1))
               else .error ()) := rfl
theorem fetch_iter (buf c : Bytes) (rest : List Bytes) (junk v tail : Bytes)
    (hBC : buf ++ c = junk ++ ([34, 105, 100, 34, 58, 34] ++ (v ++ 34 :: tail)))
    (hcne : c.isEmpty = false)
    (hjunk : ∀ b ∈ junk, b ≠ 34)
    (hv : ∀ b ∈ v, b < 128 ∧ b ≠ 34)
    (hlen : (buf ++ c).length ≤ 4096) :
    fetchStationGo (c :: rest) buf =
      (if hasSub stationsPat v then .ok (some (lastSeg v))
       else fetchStationGo rest tail) := by
  have h1 : bfind idKeyPat (junk ++ ([34, 105, 100, 34, 58, 34] ++ (v ++ 34 :: tail))) 0
      = some junk.length := by
    unfold bfind
    rw [List.drop_zero]
    rw [firstOcc_append_notin idKeyPat 34 (by decide) junk _ hjunk]
    rw [show firstOcc idKeyPat ([34, 105, 100, 34, 58, 34] ++ (v ++ 34 :: tail))
        = some 0 from by
      rw [show idKeyPat = [34, 105, 100, 34, 58] from by decide]
      rw [show ([34, 105, 100, 34, 58, 34] : Bytes) ++ (v ++ 34 :: tail)
          = [34, 105, 100, 34, 58] ++ (34 :: (v ++ 34 :: tail)) from by simp]
      exact firstOcc_self _ _ (by decide)]
    simp
  have hdrop5 : (junk ++ ([34, 105, 100, 34, 58, 34] ++ (v ++ 34 :: tail))).drop
      (junk.length + idKeyPat.length) = 34 :: (v ++ 34 :: tail) := by
    rw [show junk.length + idKeyPat.length = (junk ++ [34, 105, 100, 34, 58]).length
        from by simp [idKeyPat, strBytes]]
    rw [show junk ++ ([34, 105, 100, 34, 58, 34] ++ (v ++ 34 :: tail))
        = (junk ++ [34, 105, 100, 34, 58]) ++ (34 :: (v ++ 34 :: tail)) from by simp]
    exact List.drop_left _ _
  have h2 : bfind [34] (junk ++ ([34, 105, 100, 34, 58, 34] ++ (v ++ 34 :: tail)))
      (junk.length + idKeyPat.length) = some (junk.length + idKeyPat.length) := by
    unfold bfind
    rw [hdrop5]
    rw [show (34 : Nat) :: (v ++ 34 :: tail) = [34] ++ (v ++ 34 :: tail) from by simp]
    rw [firstOcc_self [34] _ (by decide)]
    simp
  have hdrop6 : (junk ++ ([34, 105, 100, 34, 58, 34] ++ (v ++ 34 :: tail))).drop
      (junk.length + idKeyPat.length + 1) = v ++ 34 :: tail := by
    rw [show junk.length + idKeyPat.length + 1
        = (junk ++ [34, 105, 100, 34, 58, 34]).length from by simp [idKeyPat, strBytes]]
    rw [show junk ++ ([34, 105, 100, 34, 58, 34] ++ (v ++ 34 :: tail))
        = (junk ++ [34, 105, 100, 34, 58, 34]) ++ (v ++ 34 :: tail) from by simp]
    exact List.drop_left _ _
  have h3 : bfind [34] (junk ++ ([34, 105, 100, 34, 58, 34] ++ (v ++ 34 :: tail)))
      (junk.length + idKeyPat.length + 1) = some (v.length + (junk.length + idKeyPat.length + 1)) := by
    unfold bfind
    rw [hdrop6]
    rw [firstOcc_append_notin [34] 34 rfl v _ (fun b hb => (hv b hb).2)]
    rw [show firstOcc [34] (34 :: tail) = some 0 from by
      rw [show (34 : Nat) :: tail = [34] ++ tail from by simp]
      exact firstOcc_self [34] _ (by decide)]
    simp
  have hurl : bslice (junk ++ ([34, 105, 100, 34, 58, 34] ++ (v ++ 34 :: tail)))
      (junk.length + idKeyPat.length + 1) (v.length + (junk.length + idKeyPat.length + 1)) = v := by
    unfold bslice
    rw [show v.length + (junk.length + idKeyPat.length + 1)
        = (junk.length + idKeyPat.length + 1) + v.length from by omega]
    rw [take_add _ _ _ (by
      rw [show junk.length + idKeyPat.length + 1
          = (junk ++ [34, 105, 100, 34, 58, 34]).length from by simp [idKeyPat, strBytes]]
      rw [show junk ++ ([34, 105, 100, 34, 58, 34] ++ (v ++ 34 :: tail))
          = (junk ++ [34, 105, 100, 34, 58, 34]) ++ (v ++ 34 :: tail) from by simp]
      simp)]
    rw [hdrop6]
    rw [show (v ++ 34 :: tail).take v.length = v from List.take_left _ _]
    refine drop_eq_of_append _ _ _ ?_
    simp [idKeyPat, strBytes]
    omega
  have hdropend : (junk ++ ([34, 105, 100, 34, 58, 34] ++ (v ++ 34 :: tail))).drop
      (v.length + (junk.length + idKeyPat.length + 1) + 1) = tail := by
    rw [show junk ++ ([34, 105, 100, 34, 58, 34] ++ (v ++ 34 :: tail))
        = (junk ++ [34, 105, 100, 34, 58, 34] ++ v ++ [34]) ++ tail from by simp]
    refine drop_eq_of_append _ _ _ ?_
    simp [idKeyPat, strBytes]
    omega
  rw [fetchStationGo_cons, hcne]
  simp only [Bool.false_eq_true, if_false]
  rw [if_neg (by omega)]
  rw [hBC]
  simp only [h1, h2, h3, hurl, hdropend]
  rw [ascii_utf8Valid v (fun b hb => (hv b hb).1)]
  simp only [if_true]
/-- C6 amended: when the Byte Source delivers the rejected value and the
passing value in separate reads — first chunk holding an id value that
fails the /stations/ filter, a later chunk holding one that passes — the
extractor skips the rejected match and returns the station code of the
passing value.  (The claim's original unconditional form fails when the
stream ends in the same read-iteration as the rejection: see the
counterexample, where the function returns None although the passing value
was already buffered.) -/
theorem claim6_amended (bad good : Bytes)
    (hbad : ∀ b ∈ bad, b < 128 ∧ b ≠ 34) (hgood : ∀ b ∈ good, b < 128 ∧ b ≠ 34)
    (hlb : bad.length ≤ 4087) (hlg : good.length ≤ 4086)
    (hf1 : hasSub stationsPat bad = false) (hf2 : hasSub stationsPat good = true) :
    fetchStationId
      [strBytes "\x7b\"id\":\"" ++ bad ++ strBytes "\",",
       strBytes "\"id\":\"" ++ good ++ strBytes "\"\x7d"] = .ok (some (lastSeg good)) := by
  rw [fetchStationId]
  rw [fetch_iter [] _ _ [123] bad [44]
    (by
      rw [show strBytes "\x7b\"id\":\"" = [123, 34, 105, 100, 34, 58, 34] from by decide,
        show strBytes "\"," = [34, 44] from by decide]
      simp)
    (by
      rw [show strBytes "\x7b\"id\":\"" = [123, 34, 105, 100, 34, 58, 34] from by decide]
      rfl)
    (by decide) hbad
    (by
      rw [show strBytes "\x7b\"id\":\"" = [123, 34, 105, 100, 34, 58, 34] from by decide,
        show strBytes "\"," = [34, 44] from by decide]
      simp
      omega)]
  rw [hf1]
  simp only [Bool.false_eq_true, if_false]
  rw [fetch_iter [44] _ _ [44] good [125]
    (by
      rw [show strBytes "\"id\":\"" = [34, 105, 100, 34, 58, 34] from by decide,
        show strBytes "\"\x7d" = [34, 125] from by decide]
      simp)
    (by
      rw [show strBytes "\"id\":\"" = [34, 105, 100, 34, 58, 34] from by decide]
      rfl)
    (by decide) hgood
    (by
      rw [show strBytes "\"id\":\"" = [34, 105, 100, 34, 58, 34] from by decide,
        show strBytes "\"\x7d" = [34, 125] from by decide]
      simp
      omega)]
  rw [hf2]
  simp only [if_true]

/-- C10 amended: extract_first_json_string_value_stream never matches an
empty string value.  On every stream the result is never the empty string
(the value pattern requires a non-empty capture), and when the document is
delivered in one read and fits the 4096-byte buffer the result is exactly
the leftmost occurrence of the key with a non-empty well-formed quoted
value — which skips empty-valued occurrences, returning an occurrence on
either side of them, or None when no occurrence has a non-empty value.
(The original claim said the first occurrence AFTER the empty one is
returned; the counterexample shows an earlier non-empty occurrence wins.) -/
theorem claim10_amended :
    (∀ (chunks : List Bytes) (key : Bytes),
      extractStrStream chunks key ≠ .ok (some [])) ∧
    (∀ (doc key : Bytes), doc.length ≤ 4096 →
      extractStrStream [doc] key =
        match searchField key valStrPlus doc with
        | some v => if utf8Valid v then .ok (some v) else .error ()
        | none => .ok none) :=
  ⟨fun chunks key => extractStrGo_ne_empty key chunks [], extractStrStream_single⟩

theorem claim6_witness :
    (∀ b ∈ strBytes "x", b < 128 ∧ b ≠ 34) ∧
    (∀ b ∈ strBytes "https://a/stations/ABC", b < 128 ∧ b ≠ 34) ∧
    hasSub stationsPat (strBytes "x") = false ∧
    hasSub stationsPat (strBytes "https://a/stations/ABC") = true ∧
    fetchStationId
      [strBytes "\x7b\"id\":\"" ++ strBytes "x" ++ strBytes "\",",
       strBytes "\"id\":\"" ++ strBytes "https://a/stations/ABC" ++ strBytes "\"\x7d"] =
      .ok (some (lastSeg (strBytes "https://a/stations/ABC"))) :=
  ⟨by decide, by decide, by decide, by decide,
   claim6_amended (strBytes "x") (strBytes "https://a/stations/ABC")
     (by decide) (by decide) (by decide) (by decide) (by decide) (by decide)⟩

theorem claim7_witness :
    128 ≤ 255 ∧ 255 ≤ 255 ∧
    extractStrStream [strBytes "\x7b\"k\":\"" ++ [255] ++ strBytes "\"\x7d"] (strBytes "k") =
      .error () :=
  ⟨by decide, by decide, claim7_amended 255 (by decide) (by decide)⟩

theorem claim8_witness :
    (∀ r ∈ [recToday], wfRec r) ∧ wfRec recTonight ∧
    (truncDoc [recToday] recTonight).length ≤ 4096 ∧
    extractPeriodsStream [truncDoc [recToday] recTonight] 3 7 4096 =
      .ok (capFilter 7 3 0 0 [recToday]) :=
  ⟨by decide, by decide, by decide,
   claim8_amended [recToday] recTonight 3 7 (by decide) (by decide) (by decide)⟩

theorem claim9_witness :
    searchField (strBytes "isDaytime") valBool t9 = none ∧
    processPeriod t9 0 0 7 3 [] = .ok (0, 1, [⟨strBytes "X", [], none, false⟩]) ∧
    ((0 : Nat) = 0 ∧
      ((0 : Nat) < 3 → (1 : Nat) = 0 + 1 ∧ ∃ p : Period, p.isDaytime = false ∧
        [(⟨strBytes "X", [], none, false⟩ : Period)] = [] ++ [p]) ∧
      (¬ (0 : Nat) < 3 → (1 : Nat) = 0 ∧
        [(⟨strBytes "X", [], none, false⟩ : Period)] = [])) :=
  ⟨by decide, by decide,
   claim9_missing_isDaytime_is_night t9 0 0 7 3 [] 0 1 [⟨strBytes "X", [], none, false⟩]
     (by decide) (by decide)⟩

theorem claim10_witness :
    (strBytes "\x7b\"k\":\"A\",\"k\":\"\"\x7d").length ≤ 4096 ∧
    extractStrStream [strBytes "\x7b\"k\":\"A\",\"k\":\"\"\x7d"] (strBytes "k") =
      (match searchField (strBytes "k") valStrPlus (strBytes "\x7b\"k\":\"A\",\"k\":\"\"\x7d") with
       | some v => if utf8Valid v then .ok (some v) else .error ()
       | none => .ok none) :=
  ⟨by decide,
   claim10_amended.2 (strBytes "\x7b\"k\":\"A\",\"k\":\"\"\x7d") (strBytes "k") (by decide)⟩
